import Mathlib

/-!
# In-memory expiring cache (`memory.go`)

A shallow embedding of the `MemoryCache` backend: the item type with its expiry
test, the map of items, and the operations `Get`, `GetMulti`, `Put`, `Delete`,
`Incr`, `Decr`, `IsExist`, `ClearAll`, `StartAndGC`, together with the head of
`checkPeriod` and the two halves of the reclaim sweep (`expiredKeys`,
`clearItems`).

Modelling conventions.

* The clock is an explicit argument `now`: every call of `time.Now()` in the
  source becomes a parameter of the embedded function.  Instants are the
  monotonic-clock readings carried by `time.Now()` (nanoseconds, an `int64`).
* `time.Duration` is an `int64` count of nanoseconds.
* `interface{}` values are a tagged union `Value`; Go `int`/`uint` are taken at
  64 bits.  Integer arithmetic wraps modulo `2 ^ w` as Go specifies.
* The Go map `map[string]*MemoryItem` is an association list searched from the
  front; every item pointer is owned by exactly one map slot (each `Put`
  allocates a fresh item), so the in-place write `itm.val = ...` is an update
  of that slot.
* The reader/writer lock is modelled by atomicity: each method body that runs
  under the lock is one atomic step.  `Runtime.run` interleaves the callers'
  operations with the two locked sections of a wake of the reclaimer, the
  scan of `expiredKeys` and `clearItems`, between which the lock is free.
* A returned Go `error` is `Option CacheError`, `none` standing for `nil`.
* A run-time panic (failed type assertion, nil pointer dereference) is the
  result `none` of a function returning `Option`.
* A sweep reads the clock once: all items are tested against the same `now`.
-/

namespace Cache

/-! ## Values and machine integers -/

/-- Dynamic values stored behind `interface{}`: the nil interface, the integer
kinds with their payload, and the non-integer kinds. -/
inductive Value where
  | nil
  | bool (b : Bool)
  | int (n : Int)
  | int8 (n : Int)
  | int16 (n : Int)
  | int32 (n : Int)
  | int64 (n : Int)
  | uint (n : Nat)
  | uint8 (n : Nat)
  | uint16 (n : Nat)
  | uint32 (n : Nat)
  | uint64 (n : Nat)
  | float32 (bits : Nat)
  | float64 (bits : Nat)
  | string (s : String)
  | other (typeId : Nat)
  deriving DecidableEq, Repr

/-- Width in bits of Go `int` and `uint` on the 64-bit targets. -/
def intSize : Nat := 64

/-- Two's-complement wrap of an integer into the signed `w`-bit range. -/
def wrapSigned (w : Nat) (x : Int) : Int :=
  (x + 2 ^ (w - 1)) % 2 ^ w - 2 ^ (w - 1)

/-- Wrap of a natural number into the unsigned `w`-bit range. -/
def wrapUnsigned (w : Nat) (x : Nat) : Nat :=
  x % 2 ^ w

/-- Smallest value of the signed `w`-bit type. -/
def minSigned (w : Nat) : Int := -(2 ^ (w - 1))

/-- Largest value of the signed `w`-bit type. -/
def maxSigned (w : Nat) : Int := 2 ^ (w - 1) - 1

/-- Largest value of the unsigned `w`-bit type. -/
def maxUnsigned (w : Nat) : Nat := 2 ^ w - 1

/-- The payload of a value fits the range of its Go type. -/
def Value.inRange : Value → Prop
  | .int n => minSigned intSize ≤ n ∧ n ≤ maxSigned intSize
  | .int8 n => minSigned 8 ≤ n ∧ n ≤ maxSigned 8
  | .int16 n => minSigned 16 ≤ n ∧ n ≤ maxSigned 16
  | .int32 n => minSigned 32 ≤ n ∧ n ≤ maxSigned 32
  | .int64 n => minSigned 64 ≤ n ∧ n ≤ maxSigned 64
  | .uint n => n ≤ maxUnsigned intSize
  | .uint8 n => n ≤ maxUnsigned 8
  | .uint16 n => n ≤ maxUnsigned 16
  | .uint32 n => n ≤ maxUnsigned 32
  | .uint64 n => n ≤ maxUnsigned 64
  | .float32 b => b ≤ maxUnsigned 32
  | .float64 b => b ≤ maxUnsigned 64
  | _ => True

/-- The dynamic type is one of Go's signed or unsigned integer kinds. -/
def Value.isIntegerKind : Value → Bool
  | .int _ | .int8 _ | .int16 _ | .int32 _ | .int64 _ => true
  | .uint _ | .uint8 _ | .uint16 _ | .uint32 _ | .uint64 _ => true
  | _ => false

/-- The dynamic type is one of the six types named by the cases of the type
switches in `Incr` and `Decr`. -/
def Value.isCounterType : Value → Bool
  | .int _ | .int32 _ | .int64 _ | .uint _ | .uint32 _ | .uint64 _ => true
  | _ => false

/-- The dynamic type is one of `uint`, `uint32`, `uint64`. -/
def Value.isUnsignedCounter : Value → Bool
  | .uint _ | .uint32 _ | .uint64 _ => true
  | _ => false

/-! ## Time -/

/-- Value of `maxDuration` in package `time`. -/
def maxDuration : Int := 2 ^ 63 - 1

/-- Value of `minDuration` in package `time`. -/
def minDuration : Int := -(2 ^ 63)

/-- An instant is a monotonic-clock reading: a non-negative `int64`. -/
def validInstant (t : Int) : Prop := 0 ≤ t ∧ t ≤ maxDuration

/-- A duration is an `int64`. -/
def validDuration (d : Int) : Prop := minDuration ≤ d ∧ d ≤ maxDuration

/-- The difference `t.Sub(u)` of two instants carrying monotonic readings, as
`time.subMono` computes it: the wrapped `int64` difference, saturated when the
wrap changed its sign. -/
def subMono (t u : Int) : Int :=
  let d := wrapSigned 64 (t - u)
  if d < 0 ∧ t > u then maxDuration
  else if d > 0 ∧ t < u then minDuration
  else d

/-! ## Items -/

/-- The `MemoryItem` struct. -/
structure MemoryItem where
  val : Value
  createdTime : Int
  lifespan : Int
  deriving DecidableEq, Repr

/-- The method `isExpire`, with `time.Now()` supplied as `now`. -/
def MemoryItem.isExpire (mi : MemoryItem) (now : Int) : Bool :=
  if mi.lifespan = 0 then false
  else decide (subMono now mi.createdTime > mi.lifespan)

/-! ## The map of items -/

/-- Contents of a `map[string]*MemoryItem`. -/
abbrev Items := List (String × MemoryItem)

/-- Map index `m[k]` with the comma-ok result. -/
def mapLookup (k : String) : Items → Option MemoryItem
  | [] => none
  | (k', itm) :: rest => if k' = k then some itm else mapLookup k rest

/-- The builtin `delete(m, k)`. -/
def mapDelete (k : String) (m : Items) : Items :=
  m.filter (fun e => decide (e.1 ≠ k))

/-- Map assignment `m[k] = itm`. -/
def mapAssign (k : String) (itm : MemoryItem) (m : Items) : Items :=
  (k, itm) :: mapDelete k m

/-- The write `itm.val = v` through the pointer stored at key `k`. -/
def mapSetVal (k : String) (v : Value) (m : Items) : Items :=
  m.map (fun e => if e.1 = k then (e.1, { e.2 with val := v }) else e)

/-- Keys of the map, in iteration order. -/
def mapKeys (m : Items) : List String := m.map Prod.fst

/-! ## The cache -/

/-- The `MemoryConf` struct.  `TimeoutFn` records whether the function field is
non-nil; its calls are collected by `expiredKeys`. -/
structure MemoryConf where
  CheckPeriodMs : Int
  TimeoutFn : Bool
  deriving DecidableEq, Repr

/-- The `MemoryCache` struct without its lock; `config` is a pointer and may be
nil. -/
structure MemoryCache where
  items : Items
  config : Option MemoryConf
  deriving DecidableEq, Repr

/-- Errors built with `errors.New` in `memory.go`. -/
inductive CacheError where
  /-- The text is "key not exist". -/
  | keyNotExist
  /-- The text is "delete key error". -/
  | deleteKeyError
  /-- The text is "item val is not (u)int (u)int32 (u)int64". -/
  | notCounterIncr
  /-- The text is "item val is less than 0". -/
  | lessThanZero
  /-- The text is "item val is not int int64 int32". -/
  | notCounterDecr
  deriving DecidableEq, Repr

/-- Kinds of error named by the design: key not found, unsupported type,
underflow. -/
inductive ErrorKind where
  | KeyNotFound
  | UnsupportedType
  | Underflow
  | Internal
  deriving DecidableEq, Repr

/-- Classification of the error texts into kinds. -/
def CacheError.kind : CacheError → ErrorKind
  | .keyNotExist => .KeyNotFound
  | .deleteKeyError => .Internal
  | .notCounterIncr => .UnsupportedType
  | .lessThanZero => .Underflow
  | .notCounterDecr => .UnsupportedType

/-- The constructor `NewMemoryCache`. -/
def NewMemoryCache : MemoryCache := { items := [], config := none }

/-- The method `Get`. -/
def MemoryCache.Get (mc : MemoryCache) (name : String) (now : Int) : Value :=
  match mapLookup name mc.items with
  | some itm => if itm.isExpire now then .nil else itm.val
  | none => .nil

/-- The method `GetMulti`. -/
def MemoryCache.GetMulti (mc : MemoryCache) (names : List String) (now : Int) : List Value :=
  names.foldl (fun rc name => rc ++ [mc.Get name now]) []

/-- The method `Put`, with `time.Now()` supplied as `now`. -/
def MemoryCache.Put (mc : MemoryCache) (name : String) (value : Value) (lifespan : Int)
    (now : Int) : MemoryCache × Option CacheError :=
  let itm : MemoryItem := { val := value, createdTime := now, lifespan := lifespan }
  ({ mc with items := mapAssign name itm mc.items }, none)

/-- The method `Delete`. -/
def MemoryCache.Delete (mc : MemoryCache) (name : String) : MemoryCache × Option CacheError :=
  match mapLookup name mc.items with
  | none => (mc, some .keyNotExist)
  | some _ =>
    let mc1 := { mc with items := mapDelete name mc.items }
    match mapLookup name mc1.items with
    | some _ => (mc1, some .deleteKeyError)
    | none => (mc1, none)

/-- The method `Incr`. -/
def MemoryCache.Incr (mc : MemoryCache) (key : String) : MemoryCache × Option CacheError :=
  match mapLookup key mc.items with
  | none => (mc, some .keyNotExist)
  | some itm =>
    match itm.val with
    | .int n =>
      ({ mc with items := mapSetVal key (.int (wrapSigned intSize (n + 1))) mc.items }, none)
    | .int32 n =>
      ({ mc with items := mapSetVal key (.int32 (wrapSigned 32 (n + 1))) mc.items }, none)
    | .int64 n =>
      ({ mc with items := mapSetVal key (.int64 (wrapSigned 64 (n + 1))) mc.items }, none)
    | .uint n =>
      ({ mc with items := mapSetVal key (.uint (wrapUnsigned intSize (n + 1))) mc.items }, none)
    | .uint32 n =>
      ({ mc with items := mapSetVal key (.uint32 (wrapUnsigned 32 (n + 1))) mc.items }, none)
    | .uint64 n =>
      ({ mc with items := mapSetVal key (.uint64 (wrapUnsigned 64 (n + 1))) mc.items }, none)
    | _ => (mc, some .notCounterIncr)

/-- The method `Decr`. -/
def MemoryCache.Decr (mc : MemoryCache) (key : String) : MemoryCache × Option CacheError :=
  match mapLookup key mc.items with
  | none => (mc, some .keyNotExist)
  | some itm =>
    match itm.val with
    | .int n =>
      ({ mc with items := mapSetVal key (.int (wrapSigned intSize (n - 1))) mc.items }, none)
    | .int64 n =>
      ({ mc with items := mapSetVal key (.int64 (wrapSigned 64 (n - 1))) mc.items }, none)
    | .int32 n =>
      ({ mc with items := mapSetVal key (.int32 (wrapSigned 32 (n - 1))) mc.items }, none)
    | .uint n =>
      if n > 0 then
        ({ mc with items := mapSetVal key (.uint (wrapUnsigned intSize (n - 1))) mc.items }, none)
      else (mc, some .lessThanZero)
    | .uint32 n =>
      if n > 0 then
        ({ mc with items := mapSetVal key (.uint32 (wrapUnsigned 32 (n - 1))) mc.items }, none)
      else (mc, some .lessThanZero)
    | .uint64 n =>
      if n > 0 then
        ({ mc with items := mapSetVal key (.uint64 (wrapUnsigned 64 (n - 1))) mc.items }, none)
      else (mc, some .lessThanZero)
    | _ => (mc, some .notCounterDecr)

/-- The method `IsExist`. -/
def MemoryCache.IsExist (mc : MemoryCache) (name : String) (now : Int) : Bool :=
  match mapLookup name mc.items with
  | some v => !v.isExpire now
  | none => false

/-- The method `ClearAll`. -/
def MemoryCache.ClearAll (mc : MemoryCache) : MemoryCache × Option CacheError :=
  ({ mc with items := [] }, none)

/-! ## The reclaim sweep -/

/-- The loop of the method `expiredKeys` over the entries of the map, with the
clock read as `now`: the collected keys and the `(key, value)` arguments of the
started `TimeoutFn` calls.  The result is `none` when `mc.config` is nil at an
expired item, where the source dereferences it. -/
def expiredKeysLoop (config : Option MemoryConf) (now : Int) :
    Items → Option (List String × List (String × Value))
  | [] => some ([], [])
  | (key, itm) :: rest =>
    if itm.isExpire now then
      match config with
      | none => none
      | some conf =>
        match expiredKeysLoop config now rest with
        | none => none
        | some (keys, calls) =>
          some (key :: keys, if conf.TimeoutFn then (key, itm.val) :: calls else calls)
    else expiredKeysLoop config now rest

/-- The method `expiredKeys`. -/
def MemoryCache.expiredKeys (mc : MemoryCache) (now : Int) :
    Option (List String × List (String × Value)) :=
  expiredKeysLoop mc.config now mc.items

/-- The method `clearItems`. -/
def MemoryCache.clearItems (mc : MemoryCache) (keys : List String) : MemoryCache :=
  { mc with items := keys.foldl (fun m key => mapDelete key m) mc.items }

/-- One wake of the loop in `checkPeriod` with no caller's operation between
its scan and its clearing: collect the expired keys and, when there are any,
clear them.  The exit test `mc.items == nil` never holds, the
map being made by `NewMemoryCache` and remade by `ClearAll`.  The result is
`none` when `expiredKeys` dereferences a nil `mc.config`. -/
def MemoryCache.reclaim (mc : MemoryCache) (now : Int) : Option MemoryCache :=
  match mc.expiredKeys now with
  | none => none
  | some (keys, _) => if keys.length > 0 then some (mc.clearItems keys) else some mc

/-! ## Sequences of operations -/

/-- A call of one capability operation, or one of the two locked sections of a
wake of the reclaimer: the scan of `expiredKeys` under the read lock, and
`clearItems` under the write lock.  The lock is free between the two, so
callers' operations may run there. -/
inductive Op where
  | get (name : String)
  | getMulti (names : List String)
  | put (name : String) (value : Value) (lifespan : Int)
  | delete (name : String)
  | incr (key : String)
  | decr (key : String)
  | isExist (name : String)
  | clearAll
  | expiredKeys
  | clearItems
  deriving DecidableEq, Repr

/-- The operation is a caller's write addressed to key `k` (`ClearAll` is
addressed to every key). -/
def Op.writes (k : String) : Op → Bool
  | .put name _ _ => decide (name = k)
  | .delete name => decide (name = k)
  | .incr key => decide (key = k)
  | .decr key => decide (key = k)
  | .clearAll => true
  | _ => false

/-- The cache after a caller's operation performed at time `now`; the two
sections of the reclaimer are not calls and leave it as it is. -/
def MemoryCache.call (mc : MemoryCache) (now : Int) : Op → MemoryCache
  | .put name value lifespan => (mc.Put name value lifespan now).1
  | .delete name => (mc.Delete name).1
  | .incr key => (mc.Incr key).1
  | .decr key => (mc.Decr key).1
  | .clearAll => mc.ClearAll.1
  | _ => mc

/-- The cache together with the reclaimer goroutine: `collected` holds the keys
returned by `expiredKeys` in `checkPeriod` for which `clearItems` has not run
yet, and is `none` while the goroutine sleeps. -/
structure Runtime where
  cache : MemoryCache
  collected : Option (List String)
  deriving DecidableEq, Repr

/-- State after one locked section performed at time `now`.  A scan happens
only while no keys are collected, and keeps its keys when there are any, as
the `if` in `checkPeriod` does; the clearing happens only on collected keys;
in the other states the two sections of the reclaimer do not occur and the
state is unchanged.  The result is `none` when the reclaimer goroutine stops
the process. -/
def Runtime.step (s : Runtime) (now : Int) (op : Op) : Option Runtime :=
  match op with
  | .expiredKeys =>
    match s.collected with
    | some _ => some s
    | none =>
      match s.cache.expiredKeys now with
      | none => none
      | some (keys, _) =>
        if keys.length > 0 then some { s with collected := some keys } else some s
  | .clearItems =>
    match s.collected with
    | none => some s
    | some keys => some { cache := s.cache.clearItems keys, collected := none }
  | _ => some { s with cache := s.cache.call now op }

/-- State after a sequence of timed locked sections. -/
def Runtime.run (s : Runtime) : List (Int × Op) → Option Runtime
  | [] => some s
  | (now, op) :: rest =>
    match s.step now op with
    | none => none
    | some s1 => s1.run rest

/-! ## Auxiliary definitions for the statements -/

/-- A cache holding key "a" with the int 1, created at instant 0 with a
lifespan of 10 ns, and key "n" holding nil without expiry. -/
def exampleCache : MemoryCache :=
  { items := [("a", { val := .int 1, createdTime := 0, lifespan := 10 }),
              ("n", { val := .nil, createdTime := 0, lifespan := 0 })],
    config := some { CheckPeriodMs := 500, TimeoutFn := true } }

/-- Every entry of the map under key `k` holds the item `itm`. -/
def OnlyItem (k : String) (itm : MemoryItem) (m : Items) : Prop :=
  ∀ e ∈ m, e.1 = k → e.2 = itm

/-- Operations on other keys and a wake of the reclaimer, with their times. -/
def exampleOps : List (Int × Op) :=
  [(103, .put "b" (.string "x") 1), (105, .expiredKeys), (107, .incr "n"),
   (108, .clearItems), (109, .delete "n")]

/-- A schedule in which a caller's `Put` on key "a" runs between the scan and
the clearing of one wake of the reclaimer. -/
def raceOps : List (Int × Op) :=
  [(50, .expiredKeys), (55, .put "a" (.string "v") 0), (56, .clearItems)]

/-- The schedule `raceOps` with a lifespan of 1000 ns in place of 0. -/
def raceOpsTimed : List (Int × Op) :=
  [(50, .expiredKeys), (55, .put "a" (.string "v") 1000), (56, .clearItems)]

/-- The same sections with the `Put` after the wake of the reclaimer. -/
def orderedOps : List (Int × Op) :=
  [(50, .expiredKeys), (51, .clearItems), (55, .put "a" (.string "v") 0)]

/-- Go's `n + 1` in the signed type of `w` bits: the largest value wraps to
the smallest. -/
def succSigned (w : Nat) (n : Int) : Int :=
  if n = maxSigned w then minSigned w else n + 1

/-- Go's `n - 1` in the signed type of `w` bits: the smallest value wraps to
the largest. -/
def predSigned (w : Nat) (n : Int) : Int :=
  if n = minSigned w then maxSigned w else n - 1

/-- Go's `n + 1` in the unsigned type of `w` bits: the largest value wraps to
zero. -/
def succUnsigned (w : Nat) (n : Nat) : Nat :=
  if n = maxUnsigned w then 0 else n + 1

/-- The value `n + 1` of the same runtime type, for a value `n` of one of the
types int, int32, int64, uint, uint32, uint64. -/
def Value.plusOne : Value → Option Value
  | .int n => some (.int (succSigned intSize n))
  | .int32 n => some (.int32 (succSigned 32 n))
  | .int64 n => some (.int64 (succSigned 64 n))
  | .uint n => some (.uint (succUnsigned intSize n))
  | .uint32 n => some (.uint32 (succUnsigned 32 n))
  | .uint64 n => some (.uint64 (succUnsigned 64 n))
  | _ => none

/-- The value `n - 1` of the same runtime type, for a value `n` of one of the
types int, int32, int64, and for a non-zero `n` of one of uint, uint32,
uint64. -/
def Value.minusOne : Value → Option Value
  | .int n => some (.int (predSigned intSize n))
  | .int32 n => some (.int32 (predSigned 32 n))
  | .int64 n => some (.int64 (predSigned 64 n))
  | .uint n => if n = 0 then none else some (.uint (n - 1))
  | .uint32 n => if n = 0 then none else some (.uint32 (n - 1))
  | .uint64 n => if n = 0 then none else some (.uint64 (n - 1))
  | _ => none

/-- The value is zero of one of the types uint, uint32, uint64. -/
def Value.isUnsignedZero : Value → Bool
  | .uint n => decide (n = 0)
  | .uint32 n => decide (n = 0)
  | .uint64 n => decide (n = 0)
  | _ => false

/-- The value is the largest value of one of the types uint, uint32, uint64. -/
def Value.isUnsignedMax : Value → Bool
  | .uint n => decide (n = maxUnsigned intSize)
  | .uint32 n => decide (n = maxUnsigned 32)
  | .uint64 n => decide (n = maxUnsigned 64)
  | _ => false

/-- The value 0 of the same type, for a value of type uint, uint32 or uint64
(the other values are returned as they are). -/
def Value.zeroLike : Value → Value
  | .uint _ => .uint 0
  | .uint32 _ => .uint32 0
  | .uint64 _ => .uint64 0
  | v => v

/-- The dynamic type is one of Go's signed integer kinds. -/
def Value.isSignedKind : Value → Bool
  | .int _ | .int8 _ | .int16 _ | .int32 _ | .int64 _ => true
  | _ => false

/-- A cache whose key "c" holds the largest uint64, without expiry. -/
def maxCounterCache : MemoryCache :=
  { items := [("c", { val := .uint64 (maxUnsigned 64), createdTime := 0, lifespan := 0 })],
    config := none }

/-- A cache whose key "c" holds the int8 value 1, without expiry. -/
def int8Cache : MemoryCache :=
  { items := [("c", { val := .int8 1, createdTime := 0, lifespan := 0 })],
    config := none }

/-- A cache whose key "z" holds the uint32 value 0 and whose key "s" holds the
smallest int64, without expiry. -/
def zeroCounterCache : MemoryCache :=
  { items := [("z", { val := .uint32 0, createdTime := 0, lifespan := 0 }),
              ("s", { val := .int64 (minSigned 64), createdTime := 0, lifespan := 0 })],
    config := none }

/-! ## Start of the reclaimer -/

/-- Value of `time.Millisecond`: a duration in nanoseconds. -/
def Millisecond : Int := 1000000

/-- The head of `checkPeriod` on a non-nil configuration: the configuration
with `CheckPeriodMs` raised to 40 when it is below, and the duration `dur`,
the `int64` product of `CheckPeriodMs` and `time.Millisecond`. -/
def checkPeriodDur (conf : MemoryConf) : MemoryConf × Int :=
  let conf1 : MemoryConf :=
    if conf.CheckPeriodMs < 40 then { conf with CheckPeriodMs := 40 } else conf
  (conf1, wrapSigned 64 (conf1.CheckPeriodMs * Millisecond))

/-- The `interface{}` argument of `StartAndGC`: a `*MemoryConf`, whose pointer
may be nil, or a value of any other dynamic type (the nil interface
included). -/
inductive ConfigArg where
  | memoryConf (p : Option MemoryConf)
  | other (v : Value)
  deriving DecidableEq, Repr

/-- The method `StartAndGC` up to the start of the goroutine: the type
assertion `config.(*MemoryConf)` and the returned nil error.  The result is
`none` when the assertion fails, which is a run-time panic. -/
def MemoryCache.StartAndGC (mc : MemoryCache) (config : ConfigArg) :
    Option (MemoryCache × Option CacheError) :=
  match config with
  | .memoryConf p => some ({ mc with config := p }, none)
  | .other _ => none

/-- The goroutine `checkPeriod` up to its first sleep: the clamped
configuration and the sleep duration.  The result is `none` when `mc.config`
is nil, where the read of `mc.config.CheckPeriodMs` is a run-time panic. -/
def MemoryCache.checkPeriodHead (mc : MemoryCache) : Option (MemoryCache × Int) :=
  match mc.config with
  | none => none
  | some conf => some ({ mc with config := some (checkPeriodDur conf).1 }, (checkPeriodDur conf).2)

/-! ## Further auxiliary definitions for the statements -/

/-- The keys of the map are pairwise distinct, as in every Go map. -/
def uniqueKeys (m : Items) : Prop := (mapKeys m).Nodup

/-- The entries whose item is expired at `now`. -/
def expiredEntries (now : Int) (m : Items) : Items :=
  m.filter (fun e => e.2.isExpire now)

/-- The entries whose item is not expired at `now`. -/
def liveEntries (now : Int) (m : Items) : Items :=
  m.filter (fun e => !e.2.isExpire now)

/-- The same entries as `exampleCache`, inserted in the other order. -/
def exampleCacheSwapped : MemoryCache :=
  { items := [("n", { val := .nil, createdTime := 0, lifespan := 0 }),
              ("a", { val := .int 1, createdTime := 0, lifespan := 10 })],
    config := some { CheckPeriodMs := 500, TimeoutFn := true } }

/-! ## Lemmas on the map primitives -/

theorem mapLookup_cons (k k1 : String) (i1 : MemoryItem) (rest : Items) :
    mapLookup k ((k1, i1) :: rest) = if k1 = k then some i1 else mapLookup k rest := rfl

theorem mapDelete_cons (k k1 : String) (i1 : MemoryItem) (rest : Items) :
    mapDelete k ((k1, i1) :: rest) =
      if k1 = k then mapDelete k rest else (k1, i1) :: mapDelete k rest := by
  by_cases hk : k1 = k <;> simp [mapDelete, List.filter_cons, hk]

theorem mapSetVal_cons (k k1 : String) (v : Value) (i1 : MemoryItem) (rest : Items) :
    mapSetVal k v ((k1, i1) :: rest) =
      (if k1 = k then (k1, { i1 with val := v }) else (k1, i1)) :: mapSetVal k v rest := rfl

theorem mapLookup_mem {k : String} {m : Items} {itm : MemoryItem}
    (h : mapLookup k m = some itm) : (k, itm) ∈ m := by
  induction m with
  | nil => simp [mapLookup] at h
  | cons e rest ih =>
    obtain ⟨k1, i1⟩ := e
    rw [mapLookup_cons] at h
    by_cases hk : k1 = k
    · rw [if_pos hk] at h
      cases h
      subst hk
      exact List.mem_cons_self _ _
    · rw [if_neg hk] at h
      exact List.mem_cons_of_mem _ (ih h)

theorem mapLookup_eq_none_iff {k : String} {m : Items} :
    mapLookup k m = none ↔ k ∉ mapKeys m := by
  induction m with
  | nil => simp [mapLookup, mapKeys]
  | cons e rest ih =>
    obtain ⟨k1, i1⟩ := e
    rw [mapLookup_cons]
    by_cases hk : k1 = k
    · subst hk
      simp [mapKeys]
    · have hk2 : ¬ k = k1 := fun h => hk h.symm
      rw [if_neg hk, ih]
      simp [mapKeys, hk2]

theorem mapLookup_mapDelete_self (k : String) (m : Items) :
    mapLookup k (mapDelete k m) = none := by
  induction m with
  | nil => rfl
  | cons e rest ih =>
    obtain ⟨k1, i1⟩ := e
    rw [mapDelete_cons]
    by_cases hk : k1 = k
    · rw [if_pos hk]; exact ih
    · rw [if_neg hk, mapLookup_cons, if_neg hk]; exact ih

theorem mapLookup_mapDelete_ne {k k1 : String} (h : k1 ≠ k) (m : Items) :
    mapLookup k (mapDelete k1 m) = mapLookup k m := by
  induction m with
  | nil => rfl
  | cons e rest ih =>
    obtain ⟨k2, i2⟩ := e
    rw [mapDelete_cons, mapLookup_cons]
    by_cases hk : k2 = k1
    · have hk2 : ¬ k2 = k := by rw [hk]; exact h
      rw [if_pos hk, if_neg hk2]; exact ih
    · rw [if_neg hk, mapLookup_cons, ih]

theorem mapLookup_mapAssign_self (k : String) (itm : MemoryItem) (m : Items) :
    mapLookup k (mapAssign k itm m) = some itm := by
  simp [mapAssign, mapLookup]

theorem mapLookup_mapAssign_ne {k k1 : String} (h : k1 ≠ k) (itm : MemoryItem) (m : Items) :
    mapLookup k (mapAssign k1 itm m) = mapLookup k m := by
  rw [mapAssign, mapLookup_cons, if_neg h, mapLookup_mapDelete_ne h]

theorem mapLookup_mapSetVal_self (k : String) (v : Value) (m : Items) :
    mapLookup k (mapSetVal k v m) =
      (mapLookup k m).map (fun itm => { itm with val := v }) := by
  induction m with
  | nil => rfl
  | cons e rest ih =>
    obtain ⟨k1, i1⟩ := e
    rw [mapSetVal_cons, mapLookup_cons]
    by_cases hk : k1 = k
    · rw [if_pos hk, mapLookup_cons, if_pos hk, if_pos hk]; rfl
    · rw [if_neg hk, mapLookup_cons, if_neg hk, if_neg hk]; exact ih

theorem mapLookup_mapSetVal_ne {k k1 : String} (h : k1 ≠ k) (v : Value) (m : Items) :
    mapLookup k (mapSetVal k1 v m) = mapLookup k m := by
  induction m with
  | nil => rfl
  | cons e rest ih =>
    obtain ⟨k2, i2⟩ := e
    rw [mapSetVal_cons, mapLookup_cons]
    by_cases hk : k2 = k1
    · have hk2 : ¬ k2 = k := by rw [hk]; exact h
      rw [if_pos hk, mapLookup_cons, if_neg hk2, if_neg hk2]; exact ih
    · rw [if_neg hk, mapLookup_cons, ih]

theorem mapKeys_mapSetVal (k : String) (v : Value) (m : Items) :
    mapKeys (mapSetVal k v m) = mapKeys m := by
  induction m with
  | nil => rfl
  | cons e rest ih =>
    obtain ⟨k1, i1⟩ := e
    rw [mapSetVal_cons]
    have ih2 : List.map Prod.fst (mapSetVal k v rest) = List.map Prod.fst rest := ih
    by_cases hk : k1 = k
    · rw [if_pos hk]; simp [mapKeys, ih2]
    · rw [if_neg hk]; simp [mapKeys, ih2]

theorem mapLookup_isSome_iff {k : String} {m : Items} :
    (∃ itm, mapLookup k m = some itm) ↔ k ∈ mapKeys m := by
  constructor
  · rintro ⟨itm, h⟩
    by_contra hk
    rw [mapLookup_eq_none_iff.mpr hk] at h
    cases h
  · intro hk
    cases h : mapLookup k m with
    | none => exact absurd hk (mapLookup_eq_none_iff.mp h)
    | some itm => exact ⟨itm, rfl⟩

/-! ## Reads: `Get` and `IsExist` -/

/-- C1: `Get(k)` returns nil when `k` has no entry in the map, returns nil when
the item of `k` is expired at the time of the call, and otherwise returns
exactly the value stored in the item of `k`. -/
theorem Get_absent_expired_or_value (mc : MemoryCache) (k : String) (now : Int) :
    (k ∉ mapKeys mc.items → mc.Get k now = Value.nil) ∧
    (∀ itm, mapLookup k mc.items = some itm → itm.isExpire now = true →
      mc.Get k now = Value.nil) ∧
    (∀ itm, mapLookup k mc.items = some itm → itm.isExpire now = false →
      mc.Get k now = itm.val) := by
  refine ⟨?_, ?_, ?_⟩
  · intro hk
    simp [MemoryCache.Get, mapLookup_eq_none_iff.mpr hk]
  · intro itm h he
    simp [MemoryCache.Get, h, he]
  · intro itm h he
    simp [MemoryCache.Get, h, he]

theorem Get_absent_expired_or_value_witness :
    exampleCache.Get "zz" 5 = Value.nil ∧ exampleCache.Get "a" 11 = Value.nil ∧
    exampleCache.Get "a" 10 = Value.int 1 :=
  ⟨(Get_absent_expired_or_value exampleCache "zz" 5).1 (by decide),
   (Get_absent_expired_or_value exampleCache "a" 11).2.1
     { val := .int 1, createdTime := 0, lifespan := 10 } (by decide) (by decide),
   (Get_absent_expired_or_value exampleCache "a" 10).2.2
     { val := .int 1, createdTime := 0, lifespan := 10 } (by decide) (by decide)⟩

/-- C3: `IsExist(k)` is true exactly when `k` has an entry in the map and the
item of that entry is not expired at the time of the call. -/
theorem IsExist_iff_present_and_live (mc : MemoryCache) (k : String) (now : Int) :
    mc.IsExist k now = true ↔
      k ∈ mapKeys mc.items ∧
        ∃ itm, mapLookup k mc.items = some itm ∧ itm.isExpire now = false := by
  constructor
  · intro h
    cases hl : mapLookup k mc.items with
    | none => simp [MemoryCache.IsExist, hl] at h
    | some itm =>
      refine ⟨mapLookup_isSome_iff.mp ⟨itm, hl⟩, itm, rfl, ?_⟩
      simpa [MemoryCache.IsExist, hl] using h
  · rintro ⟨_, itm, hl, he⟩
    simp [MemoryCache.IsExist, hl, he]

/-! ## Time arithmetic -/

theorem wrapSigned_of_inRange {x : Int} (h1 : -(2 ^ 63) ≤ x) (h2 : x ≤ 2 ^ 63 - 1) :
    wrapSigned 64 x = x := by
  unfold wrapSigned
  norm_num at h1 h2 ⊢
  omega

theorem subMono_self (t : Int) : subMono t t = 0 := by
  simp [subMono, wrapSigned]

/-- On two readings of the monotonic clock the difference is exact. -/
theorem subMono_of_valid {t u : Int} (ht : validInstant t) (hu : validInstant u) :
    subMono t u = t - u := by
  unfold validInstant maxDuration at ht hu
  norm_num at ht hu
  have hw : wrapSigned 64 (t - u) = t - u :=
    wrapSigned_of_inRange (by norm_num; omega) (by norm_num; omega)
  unfold subMono
  simp only [hw]
  rw [if_neg (by omega), if_neg (by omega)]

/-- Expiry test of an item on valid clock readings, in the words of the data
model: the lifespan is not zero and more than the lifespan has elapsed. -/
theorem isExpire_of_valid (mi : MemoryItem) {now : Int} (hn : validInstant now)
    (hc : validInstant mi.createdTime) :
    mi.isExpire now = true ↔ mi.lifespan ≠ 0 ∧ now - mi.createdTime > mi.lifespan := by
  unfold MemoryItem.isExpire
  rw [subMono_of_valid hn hc]
  by_cases h0 : mi.lifespan = 0
  · simp [h0]
  · simp [h0]

/-! ## Writes: `Put` and `Delete` -/

/-- C4 (as amended): `Put(k, v, D)` at time `t` returns no error and leaves `k`
mapped to the item with value `v`, creation time `t` and lifespan `D`,
whatever `k` held before; the entry of every other key and the configuration
are unchanged; when `D` is not negative `k` is live at time `t`, also if it
was expired before, and `Get(k)` is `v`; when `D` is negative the new item is
expired at time `t` already, so that `IsExist(k)` is false and `Get(k)` is
nil. -/
theorem Put_overwrites_and_frames (mc : MemoryCache) (k : String) (v : Value) (D t : Int) :
    (mc.Put k v D t).2 = none ∧
    mapLookup k (mc.Put k v D t).1.items =
      some { val := v, createdTime := t, lifespan := D } ∧
    (∀ k1, k1 ≠ k →
      mapLookup k1 (mc.Put k v D t).1.items = mapLookup k1 mc.items) ∧
    (mc.Put k v D t).1.config = mc.config ∧
    (0 ≤ D → (mc.Put k v D t).1.IsExist k t = true ∧ (mc.Put k v D t).1.Get k t = v) ∧
    (D < 0 →
      MemoryItem.isExpire { val := v, createdTime := t, lifespan := D } t = true ∧
      (mc.Put k v D t).1.IsExist k t = false ∧
      (mc.Put k v D t).1.Get k t = Value.nil) := by
  refine ⟨rfl, mapLookup_mapAssign_self _ _ _, ?_, rfl, ?_, ?_⟩
  · intro k1 hk
    exact mapLookup_mapAssign_ne (fun h => hk h.symm) _ _
  · intro hD
    have hl : mapLookup k (mc.Put k v D t).1.items =
        some { val := v, createdTime := t, lifespan := D } := mapLookup_mapAssign_self _ _ _
    have he : MemoryItem.isExpire { val := v, createdTime := t, lifespan := D } t = false := by
      unfold MemoryItem.isExpire
      by_cases h0 : D = 0
      · simp [h0]
      · simp [h0, subMono_self, hD]
    simp [MemoryCache.IsExist, MemoryCache.Get, hl, he]
  · intro hD
    have hl : mapLookup k (mc.Put k v D t).1.items =
        some { val := v, createdTime := t, lifespan := D } := mapLookup_mapAssign_self _ _ _
    have he : MemoryItem.isExpire { val := v, createdTime := t, lifespan := D } t = true := by
      unfold MemoryItem.isExpire
      have h0 : ¬ D = 0 := by omega
      simp [h0, subMono_self, hD]
    refine ⟨he, ?_, ?_⟩
    · simp [MemoryCache.IsExist, hl, he]
    · simp [MemoryCache.Get, hl, he]

theorem Put_overwrites_and_frames_witness :
    exampleCache.IsExist "a" 50 = false ∧
    ((exampleCache.Put "a" (.int 7) 10 50).1.IsExist "a" 50 = true ∧
      (exampleCache.Put "a" (.int 7) 10 50).1.Get "a" 50 = Value.int 7) ∧
    (exampleCache.Put "a" (.int 7) (-3) 50).1.IsExist "a" 50 = false :=
  ⟨by decide,
   (Put_overwrites_and_frames exampleCache "a" (.int 7) 10 50).2.2.2.2.1 (by decide),
   ((Put_overwrites_and_frames exampleCache "a" (.int 7) (-3) 50).2.2.2.2.2 (by decide)).2.1⟩

/-- C4 (as stated) fails for a negative lifespan: the item written by `Put`
over an expired key is itself expired at the time of the `Put`. -/
theorem Put_negative_lifespan_stays_expired :
    exampleCache.IsExist "a" 50 = false ∧
    (exampleCache.Put "a" (.int 7) (-1) 50).2 = none ∧
    mapLookup "a" (exampleCache.Put "a" (.int 7) (-1) 50).1.items =
      some { val := .int 7, createdTime := 50, lifespan := -1 } ∧
    (exampleCache.Put "a" (.int 7) (-1) 50).1.IsExist "a" 50 = false ∧
    (exampleCache.Put "a" (.int 7) (-1) 50).1.Get "a" 50 = Value.nil := by
  decide

/-- C10: `Delete(k)` on a key without entry fails with the key-not-found error
and leaves the store unchanged; on a key with an entry it succeeds, after
which `IsExist(k)` is false and `Get(k)` is nil at every time, and the entry of
every other key is unchanged. -/
theorem Delete_absent_fails_present_removes (mc : MemoryCache) (k : String) :
    (k ∉ mapKeys mc.items → mc.Delete k = (mc, some CacheError.keyNotExist)) ∧
    (k ∈ mapKeys mc.items →
      (mc.Delete k).2 = none ∧
      k ∉ mapKeys (mc.Delete k).1.items ∧
      (∀ now, (mc.Delete k).1.IsExist k now = false ∧ (mc.Delete k).1.Get k now = Value.nil) ∧
      (∀ k1, k1 ≠ k → mapLookup k1 (mc.Delete k).1.items = mapLookup k1 mc.items) ∧
      (mc.Delete k).1.config = mc.config) := by
  constructor
  · intro hk
    simp [MemoryCache.Delete, mapLookup_eq_none_iff.mpr hk]
  · intro hk
    obtain ⟨itm, hl⟩ := mapLookup_isSome_iff.mpr hk
    have hd : mc.Delete k = ({ mc with items := mapDelete k mc.items }, none) := by
      simp [MemoryCache.Delete, hl, mapLookup_mapDelete_self]
    rw [hd]
    refine ⟨rfl, ?_, ?_, ?_, rfl⟩
    · exact mapLookup_eq_none_iff.mp (mapLookup_mapDelete_self k mc.items)
    · intro now
      simp [MemoryCache.IsExist, MemoryCache.Get, mapLookup_mapDelete_self]
    · intro k1 hk1
      exact mapLookup_mapDelete_ne (fun h => hk1 h.symm) _

theorem Delete_absent_fails_present_removes_witness :
    exampleCache.Delete "zz" = (exampleCache, some CacheError.keyNotExist) ∧
    (exampleCache.Delete "a").2 = none ∧
    "a" ∉ mapKeys (exampleCache.Delete "a").1.items :=
  ⟨(Delete_absent_fails_present_removes exampleCache "zz").1 (by decide),
   ((Delete_absent_fails_present_removes exampleCache "a").2 (by decide)).1,
   ((Delete_absent_fails_present_removes exampleCache "a").2 (by decide)).2.1⟩

/-! ## Frame lemmas for the operations -/

theorem mem_mapDelete {k : String} {m : Items} {e : String × MemoryItem}
    (h : e ∈ mapDelete k m) : e ∈ m ∧ e.1 ≠ k := by
  simpa [mapDelete] using h

theorem mem_mapSetVal_of_ne {k : String} {v : Value} {m : Items} {e : String × MemoryItem}
    (h : e ∈ mapSetVal k v m) (hk : e.1 ≠ k) : e ∈ m := by
  induction m with
  | nil => simp [mapSetVal] at h
  | cons e1 rest ih =>
    obtain ⟨k1, i1⟩ := e1
    rw [mapSetVal_cons, List.mem_cons] at h
    rcases h with h | h
    · by_cases hk1 : k1 = k
      · rw [if_pos hk1] at h
        rw [h] at hk
        exact absurd hk1 hk
      · rw [if_neg hk1] at h
        rw [h]
        exact List.mem_cons_self _ _
    · exact List.mem_cons_of_mem _ (ih h)

theorem mem_foldl_mapDelete {keys : List String} {m : Items} {e : String × MemoryItem}
    (h : e ∈ keys.foldl (fun m key => mapDelete key m) m) : e ∈ m := by
  induction keys generalizing m with
  | nil => exact h
  | cons key rest ih => exact (mem_mapDelete (ih h)).1

theorem mapLookup_foldl_mapDelete (k : String) (keys : List String) (m : Items) :
    mapLookup k (keys.foldl (fun m key => mapDelete key m) m) =
      if k ∈ keys then none else mapLookup k m := by
  induction keys generalizing m with
  | nil => simp
  | cons key rest ih =>
    rw [List.foldl_cons, ih]
    by_cases hr : k ∈ rest
    · simp [hr]
    · by_cases hk : key = k
      · subst hk
        simp [hr, mapLookup_mapDelete_self]
      · have hk2 : ¬ k = key := fun h => hk h.symm
        simp [hr, hk2, mapLookup_mapDelete_ne hk]

theorem mem_expiredKeysLoop {config : Option MemoryConf} {now : Int} {m : Items}
    {keys : List String} {calls : List (String × Value)}
    (h : expiredKeysLoop config now m = some (keys, calls)) (k : String) :
    k ∈ keys ↔ ∃ itm, (k, itm) ∈ m ∧ itm.isExpire now = true := by
  induction m generalizing keys calls with
  | nil =>
    simp only [expiredKeysLoop, Option.some.injEq, Prod.mk.injEq] at h
    simp [← h.1]
  | cons e rest ih =>
    obtain ⟨k1, i1⟩ := e
    unfold expiredKeysLoop at h
    by_cases he : i1.isExpire now = true
    · rw [if_pos he] at h
      cases config with
      | none => simp at h
      | some conf =>
        cases hr : expiredKeysLoop (some conf) now rest with
        | none => simp [hr] at h
        | some r =>
          obtain ⟨keys1, calls1⟩ := r
          simp only [hr, Option.some.injEq, Prod.mk.injEq] at h
          rw [← h.1, List.mem_cons, ih hr]
          constructor
          · rintro (h1 | ⟨itm, hm, hx⟩)
            · exact ⟨i1, by rw [h1]; exact List.mem_cons_self _ _, he⟩
            · exact ⟨itm, List.mem_cons_of_mem _ hm, hx⟩
          · rintro ⟨itm, hm, hx⟩
            rcases List.mem_cons.mp hm with h1 | h1
            · left
              exact (Prod.mk.inj h1).1
            · right
              exact ⟨itm, h1, hx⟩
    · rw [if_neg he] at h
      rw [ih h]
      constructor
      · rintro ⟨itm, hm, hx⟩
        exact ⟨itm, List.mem_cons_of_mem _ hm, hx⟩
      · rintro ⟨itm, hm, hx⟩
        rcases List.mem_cons.mp hm with h1 | h1
        · rw [(Prod.mk.inj h1).2] at hx
          exact absurd hx he
        · exact ⟨itm, h1, hx⟩

/-- The store after `Incr` is the store before, or differs in the value field
of the entries under `key` only. -/
theorem Incr_state (mc : MemoryCache) (key : String) :
    (mc.Incr key).1 = mc ∨
      ∃ v, (mc.Incr key).1 = { mc with items := mapSetVal key v mc.items } := by
  unfold MemoryCache.Incr
  cases mapLookup key mc.items with
  | none => exact Or.inl rfl
  | some itm =>
    obtain ⟨val, c, l⟩ := itm
    cases val <;> first | exact Or.inl rfl | exact Or.inr ⟨_, rfl⟩

/-- The store after `Decr` is the store before, or differs in the value field
of the entries under `key` only. -/
theorem Decr_state (mc : MemoryCache) (key : String) :
    (mc.Decr key).1 = mc ∨
      ∃ v, (mc.Decr key).1 = { mc with items := mapSetVal key v mc.items } := by
  unfold MemoryCache.Decr
  cases mapLookup key mc.items with
  | none => exact Or.inl rfl
  | some itm =>
    obtain ⟨val, c, l⟩ := itm
    cases val <;> dsimp only <;>
      first
      | exact Or.inl rfl
      | exact Or.inr ⟨_, rfl⟩
      | (split
         · exact Or.inr ⟨_, rfl⟩
         · exact Or.inl rfl)

/-- The store after `Delete` is the store before, or the store with the key
deleted. -/
theorem Delete_state (mc : MemoryCache) (name : String) :
    (mc.Delete name).1 = mc ∨
      (mc.Delete name).1 = { mc with items := mapDelete name mc.items } := by
  unfold MemoryCache.Delete
  cases mapLookup name mc.items with
  | none => exact Or.inl rfl
  | some itm =>
    dsimp only
    rw [mapLookup_mapDelete_self]
    exact Or.inr rfl

theorem writes_put {k name : String} {value : Value} {lifespan : Int}
    (h : (Op.put name value lifespan).writes k = false) : name ≠ k := by
  simpa [Op.writes] using h

theorem writes_delete {k name : String} (h : (Op.delete name).writes k = false) :
    name ≠ k := by
  simpa [Op.writes] using h

theorem writes_incr {k key : String} (h : (Op.incr key).writes k = false) : key ≠ k := by
  simpa [Op.writes] using h

theorem writes_decr {k key : String} (h : (Op.decr key).writes k = false) : key ≠ k := by
  simpa [Op.writes] using h

theorem OnlyItem_mapSetVal {k key : String} {itm : MemoryItem} {m : Items} (v : Value)
    (hk : key ≠ k) (h : OnlyItem k itm m) : OnlyItem k itm (mapSetVal key v m) := by
  intro e he hek
  exact h e (mem_mapSetVal_of_ne he (by rw [hek]; exact fun x => hk x.symm)) hek

theorem OnlyItem_mapDelete {k : String} {itm : MemoryItem} {m : Items} (key : String)
    (h : OnlyItem k itm m) : OnlyItem k itm (mapDelete key m) := by
  intro e he hek
  exact h e (mem_mapDelete he).1 hek

theorem reclaim_state {mc mc1 : MemoryCache} {now : Int} (h : mc.reclaim now = some mc1) :
    ∃ keys calls, mc.expiredKeys now = some (keys, calls) ∧
      mc1.config = mc.config ∧
      mc1.items = keys.foldl (fun m key => mapDelete key m) mc.items := by
  unfold MemoryCache.reclaim at h
  cases hx : mc.expiredKeys now with
  | none => simp [hx] at h
  | some r =>
    obtain ⟨keys, calls⟩ := r
    refine ⟨keys, calls, rfl, ?_⟩
    simp only [hx] at h
    by_cases hl : keys.length > 0
    · rw [if_pos hl] at h
      cases h
      exact ⟨rfl, rfl⟩
    · rw [if_neg hl] at h
      cases h
      have : keys = [] := by
        cases keys with
        | nil => rfl
        | cons a b => simp at hl
      subst this
      exact ⟨rfl, rfl⟩

theorem OnlyItem_mapAssign (k : String) (itm : MemoryItem) (m : Items) :
    OnlyItem k itm (mapAssign k itm m) := by
  intro e he hek
  rcases List.mem_cons.mp he with h1 | h1
  · rw [h1]
  · exact absurd hek (mem_mapDelete h1).2

/-! ## Counter arithmetic: `Incr` and `Decr` -/

theorem wrapSigned_succ_64 {n : Int} (h1 : minSigned 64 ≤ n) (h2 : n ≤ maxSigned 64) :
    wrapSigned 64 (n + 1) = succSigned 64 n := by
  unfold wrapSigned succSigned minSigned maxSigned at *
  norm_num at h1 h2 ⊢
  split <;> omega

theorem wrapSigned_succ_32 {n : Int} (h1 : minSigned 32 ≤ n) (h2 : n ≤ maxSigned 32) :
    wrapSigned 32 (n + 1) = succSigned 32 n := by
  unfold wrapSigned succSigned minSigned maxSigned at *
  norm_num at h1 h2 ⊢
  split <;> omega

theorem wrapSigned_pred_64 {n : Int} (h1 : minSigned 64 ≤ n) (h2 : n ≤ maxSigned 64) :
    wrapSigned 64 (n - 1) = predSigned 64 n := by
  unfold wrapSigned predSigned minSigned maxSigned at *
  norm_num at h1 h2 ⊢
  split <;> omega

theorem wrapSigned_pred_32 {n : Int} (h1 : minSigned 32 ≤ n) (h2 : n ≤ maxSigned 32) :
    wrapSigned 32 (n - 1) = predSigned 32 n := by
  unfold wrapSigned predSigned minSigned maxSigned at *
  norm_num at h1 h2 ⊢
  split <;> omega

theorem wrapUnsigned_succ_64 {n : Nat} (h : n ≤ maxUnsigned 64) :
    wrapUnsigned 64 (n + 1) = succUnsigned 64 n := by
  unfold wrapUnsigned succUnsigned maxUnsigned at *
  norm_num at h ⊢
  split <;> omega

theorem wrapUnsigned_succ_32 {n : Nat} (h : n ≤ maxUnsigned 32) :
    wrapUnsigned 32 (n + 1) = succUnsigned 32 n := by
  unfold wrapUnsigned succUnsigned maxUnsigned at *
  norm_num at h ⊢
  split <;> omega

theorem wrapUnsigned_pred_64 {n : Nat} (h : n ≤ maxUnsigned 64) :
    wrapUnsigned 64 (n - 1) = n - 1 := by
  unfold wrapUnsigned maxUnsigned at *
  norm_num at h ⊢
  omega

theorem wrapUnsigned_pred_32 {n : Nat} (h : n ≤ maxUnsigned 32) :
    wrapUnsigned 32 (n - 1) = n - 1 := by
  unfold wrapUnsigned maxUnsigned at *
  norm_num at h ⊢
  omega

/-- On a counter value in range `Incr` succeeds and writes `n + 1`. -/
theorem Incr_of_plusOne {mc : MemoryCache} {k : String} {itm : MemoryItem} {v1 : Value}
    (h : mapLookup k mc.items = some itm) (hr : itm.val.inRange)
    (hp : itm.val.plusOne = some v1) :
    mc.Incr k = ({ mc with items := mapSetVal k v1 mc.items }, none) := by
  obtain ⟨val, c, l⟩ := itm
  cases val <;> simp only [Value.plusOne, Option.some.injEq, reduceCtorEq] at hp <;>
    subst hp <;> simp only [Value.inRange, intSize] at hr <;>
    simp only [MemoryCache.Incr, h, intSize]
  · rw [wrapSigned_succ_64 hr.1 hr.2]
  · rw [wrapSigned_succ_32 hr.1 hr.2]
  · rw [wrapSigned_succ_64 hr.1 hr.2]
  · rw [wrapUnsigned_succ_64 hr]
  · rw [wrapUnsigned_succ_32 hr]
  · rw [wrapUnsigned_succ_64 hr]

/-- On a value outside the six counter types `Incr` fails and writes nothing. -/
theorem Incr_of_not_counter {mc : MemoryCache} {k : String} {itm : MemoryItem}
    (h : mapLookup k mc.items = some itm) (hc : itm.val.isCounterType = false) :
    mc.Incr k = (mc, some CacheError.notCounterIncr) := by
  obtain ⟨val, c, l⟩ := itm
  cases val <;> simp only [Value.isCounterType, reduceCtorEq] at hc <;>
    simp only [MemoryCache.Incr, h]

/-- On a counter value in range, other than an unsigned zero, `Decr` succeeds
and writes `n - 1`. -/
theorem Decr_of_minusOne {mc : MemoryCache} {k : String} {itm : MemoryItem} {v1 : Value}
    (h : mapLookup k mc.items = some itm) (hr : itm.val.inRange)
    (hp : itm.val.minusOne = some v1) :
    mc.Decr k = ({ mc with items := mapSetVal k v1 mc.items }, none) := by
  obtain ⟨val, c, l⟩ := itm
  cases val with
  | int n =>
    simp only [Value.minusOne, Option.some.injEq] at hp
    subst hp
    simp only [Value.inRange, intSize] at hr
    simp only [MemoryCache.Decr, h, intSize]
    rw [wrapSigned_pred_64 hr.1 hr.2]
  | int32 n =>
    simp only [Value.minusOne, Option.some.injEq] at hp
    subst hp
    simp only [Value.inRange] at hr
    simp only [MemoryCache.Decr, h]
    rw [wrapSigned_pred_32 hr.1 hr.2]
  | int64 n =>
    simp only [Value.minusOne, Option.some.injEq] at hp
    subst hp
    simp only [Value.inRange] at hr
    simp only [MemoryCache.Decr, h]
    rw [wrapSigned_pred_64 hr.1 hr.2]
  | uint n =>
    simp only [Value.minusOne] at hp
    by_cases h0 : n = 0
    · simp [h0] at hp
    · simp only [h0, if_false, Option.some.injEq] at hp
      subst hp
      simp only [Value.inRange, intSize] at hr
      have hpos : n > 0 := Nat.pos_of_ne_zero h0
      simp only [MemoryCache.Decr, h, intSize, if_pos hpos]
      rw [wrapUnsigned_pred_64 hr]
  | uint32 n =>
    simp only [Value.minusOne] at hp
    by_cases h0 : n = 0
    · simp [h0] at hp
    · simp only [h0, if_false, Option.some.injEq] at hp
      subst hp
      simp only [Value.inRange] at hr
      have hpos : n > 0 := Nat.pos_of_ne_zero h0
      simp only [MemoryCache.Decr, h, if_pos hpos]
      rw [wrapUnsigned_pred_32 hr]
  | uint64 n =>
    simp only [Value.minusOne] at hp
    by_cases h0 : n = 0
    · simp [h0] at hp
    · simp only [h0, if_false, Option.some.injEq] at hp
      subst hp
      simp only [Value.inRange] at hr
      have hpos : n > 0 := Nat.pos_of_ne_zero h0
      simp only [MemoryCache.Decr, h, if_pos hpos]
      rw [wrapUnsigned_pred_64 hr]
  | _ => simp [Value.minusOne] at hp

/-- On an unsigned zero `Decr` fails with the less-than-zero error and writes
nothing. -/
theorem Decr_of_unsignedZero {mc : MemoryCache} {k : String} {itm : MemoryItem}
    (h : mapLookup k mc.items = some itm) (hz : itm.val.isUnsignedZero = true) :
    mc.Decr k = (mc, some CacheError.lessThanZero) := by
  obtain ⟨val, c, l⟩ := itm
  cases val <;> simp only [Value.isUnsignedZero, decide_eq_true_eq, reduceCtorEq] at hz <;>
    subst hz <;> simp [MemoryCache.Decr, h]

/-- On a value outside the six counter types `Decr` fails and writes nothing. -/
theorem Decr_of_not_counter {mc : MemoryCache} {k : String} {itm : MemoryItem}
    (h : mapLookup k mc.items = some itm) (hc : itm.val.isCounterType = false) :
    mc.Decr k = (mc, some CacheError.notCounterDecr) := by
  obtain ⟨val, c, l⟩ := itm
  cases val <;> simp only [Value.isCounterType, reduceCtorEq] at hc <;>
    simp only [MemoryCache.Decr, h]

/-- On a counter value that is not an unsigned zero `Decr` returns no error. -/
theorem Decr_ok_of_counter {mc : MemoryCache} {k : String} {itm : MemoryItem}
    (h : mapLookup k mc.items = some itm) (hc : itm.val.isCounterType = true)
    (hz : itm.val.isUnsignedZero = false) : (mc.Decr k).2 = none := by
  obtain ⟨val, c, l⟩ := itm
  cases val <;> simp only [Value.isCounterType, reduceCtorEq] at hc <;>
    simp only [Value.isUnsignedZero, decide_eq_false_iff_not] at hz <;>
    simp only [MemoryCache.Decr, h] <;>
    first
    | rfl
    | (rw [if_pos (Nat.pos_of_ne_zero hz)])

/-- On a counter value `Incr` returns no error. -/
theorem Incr_ok_of_counter {mc : MemoryCache} {k : String} {itm : MemoryItem}
    (h : mapLookup k mc.items = some itm) (hc : itm.val.isCounterType = true) :
    (mc.Incr k).2 = none := by
  obtain ⟨val, c, l⟩ := itm
  cases val <;> simp only [Value.isCounterType, reduceCtorEq] at hc <;>
    simp only [MemoryCache.Incr, h]

theorem not_counter_of_not_integer {v : Value} (h : v.isIntegerKind = false) :
    v.isCounterType = false := by
  cases v <;> simp_all [Value.isIntegerKind, Value.isCounterType]

theorem not_unsignedZero_of_not_counter {v : Value} (h : v.isCounterType = false) :
    v.isUnsignedZero = false := by
  cases v <;> simp_all [Value.isUnsignedZero, Value.isCounterType]

/-- Below the unsigned maximum, `n + 1` is a counter value in range whose
`n - 1` is the value started from. -/
theorem plusOne_minusOne {v : Value} (hr : v.inRange) (hc : v.isCounterType = true)
    (hm : v.isUnsignedMax = false) :
    ∃ v1, v.plusOne = some v1 ∧ v1.inRange ∧ v1.minusOne = some v := by
  cases v <;> simp only [Value.isCounterType, reduceCtorEq] at hc <;>
    simp only [Value.isUnsignedMax, decide_eq_false_iff_not] at hm <;>
    simp only [Value.inRange] at hr <;>
    refine ⟨_, rfl, ?_, ?_⟩ <;>
    simp only [Value.inRange, Value.minusOne, succSigned, predSigned, succUnsigned,
      minSigned, maxSigned, maxUnsigned, intSize] at hr hm ⊢ <;>
    norm_num at hr hm ⊢ <;>
    first
    | omega
    | (split <;> omega)

/-- At the largest value of an unsigned counter type, `n + 1` is the zero of
that type. -/
theorem plusOne_of_unsignedMax {v : Value} (hm : v.isUnsignedMax = true) :
    v.plusOne = some v.zeroLike ∧ v.zeroLike.isUnsignedZero = true ∧ v.zeroLike ≠ v := by
  cases v <;> simp only [Value.isUnsignedMax, decide_eq_true_eq, reduceCtorEq] at hm <;>
    subst hm <;>
    simp [Value.plusOne, Value.zeroLike, Value.isUnsignedZero, succUnsigned, maxUnsigned,
      intSize]

/-- C5 (as amended): for a counter value `v` in range (of type int, int32,
int64, uint, uint32 or uint64) stored under a present key `k`.  When `v` is not
the largest value of an unsigned type, `Incr(k)` and then `Decr(k)` both
succeed, put the item of `k` back as it was, leave every other key as it was,
and so leave `Get(k)` equal to `v` at every time at which the item is not
expired.  When `v` is the largest value of uint, uint32 or uint64, `Incr(k)`
succeeds and stores the 0 of the same type, the following `Decr(k)` fails with
the less-than-zero error (the underflow kind) and returns the store as it
was, so that the stored value stays that 0, which differs from `v`, and
`Get(k)` returns it at every time at which the item is not expired. -/
theorem Incr_then_Decr_restores (mc : MemoryCache) (k : String) (itm : MemoryItem)
    (h : mapLookup k mc.items = some itm) (hr : itm.val.inRange)
    (hc : itm.val.isCounterType = true) :
    (itm.val.isUnsignedMax = false →
      (mc.Incr k).2 = none ∧ ((mc.Incr k).1.Decr k).2 = none ∧
      mapLookup k ((mc.Incr k).1.Decr k).1.items = some itm ∧
      (∀ k1, k1 ≠ k →
        mapLookup k1 ((mc.Incr k).1.Decr k).1.items = mapLookup k1 mc.items) ∧
      (∀ now, itm.isExpire now = false →
        ((mc.Incr k).1.Decr k).1.Get k now = itm.val)) ∧
    (itm.val.isUnsignedMax = true →
      (mc.Incr k).2 = none ∧
      mapLookup k (mc.Incr k).1.items = some { itm with val := itm.val.zeroLike } ∧
      (mc.Incr k).1.Decr k = ((mc.Incr k).1, some CacheError.lessThanZero) ∧
      CacheError.kind CacheError.lessThanZero = ErrorKind.Underflow ∧
      itm.val.zeroLike.isUnsignedZero = true ∧
      itm.val.zeroLike ≠ itm.val ∧
      (∀ now, itm.isExpire now = false →
        ((mc.Incr k).1.Decr k).1.Get k now = itm.val.zeroLike)) := by
  constructor
  · intro hm
    obtain ⟨v1, hp, hr1, hq⟩ := plusOne_minusOne hr hc hm
    have hI := Incr_of_plusOne h hr hp
    have hl1 : mapLookup k (mc.Incr k).1.items = some { itm with val := v1 } := by
      rw [hI]
      simp only [mapLookup_mapSetVal_self, h, Option.map_some']
    have hD := Decr_of_minusOne hl1 hr1 hq
    have hl2 : mapLookup k ((mc.Incr k).1.Decr k).1.items = some itm := by
      rw [hD]
      simp only [mapLookup_mapSetVal_self, hl1, Option.map_some']
    refine ⟨by rw [hI], by rw [hD], hl2, ?_, ?_⟩
    · intro k1 hk1
      have hne : k ≠ k1 := fun x => hk1 x.symm
      rw [hD]
      simp only [mapLookup_mapSetVal_ne hne]
      rw [hI]
      simp only [mapLookup_mapSetVal_ne hne]
    · intro now he
      simp [MemoryCache.Get, hl2, he]
  · intro hm
    obtain ⟨hp, hz, hne⟩ := plusOne_of_unsignedMax hm
    have hI := Incr_of_plusOne h hr hp
    have hl1 : mapLookup k (mc.Incr k).1.items =
        some { itm with val := itm.val.zeroLike } := by
      rw [hI]
      simp only [mapLookup_mapSetVal_self, h, Option.map_some']
    have hD := Decr_of_unsignedZero hl1 hz
    refine ⟨by rw [hI], hl1, hD, rfl, hz, hne, ?_⟩
    intro now he
    have he1 : MemoryItem.isExpire { itm with val := itm.val.zeroLike } now = false := he
    rw [hD]
    simp [MemoryCache.Get, hl1, he1]

theorem Incr_then_Decr_restores_witness :
    ((zeroCounterCache.Incr "s").1.Decr "s").1.Get "s" 7 = Value.int64 (minSigned 64) ∧
    (maxCounterCache.Incr "c").1.Decr "c" =
      ((maxCounterCache.Incr "c").1, some CacheError.lessThanZero) :=
  ⟨((Incr_then_Decr_restores zeroCounterCache "s"
      { val := .int64 (minSigned 64), createdTime := 0, lifespan := 0 }
      (by decide) (by unfold Value.inRange; decide) (by decide)).1 (by decide)).2.2.2.2 7
        (by decide),
   ((Incr_then_Decr_restores maxCounterCache "c"
      { val := .uint64 (maxUnsigned 64), createdTime := 0, lifespan := 0 }
      (by decide) (by unfold Value.inRange; decide) (by decide)).2 (by decide)).2.2.1⟩

/-- C5 (as stated) fails at the largest uint64: `Incr` succeeds and wraps the
value to 0, after which `Decr` fails with the less-than-zero error and `Get`
returns 0, not the value started from. -/
theorem Incr_then_Decr_at_unsigned_max :
    maxCounterCache.Get "c" 7 = Value.uint64 18446744073709551615 ∧
    (maxCounterCache.Incr "c").2 = none ∧
    (maxCounterCache.Incr "c").1.Get "c" 7 = Value.uint64 0 ∧
    ((maxCounterCache.Incr "c").1.Decr "c").2 = some CacheError.lessThanZero ∧
    ((maxCounterCache.Incr "c").1.Decr "c").1.Get "c" 7 = Value.uint64 0 := by
  decide

theorem plusOne_isSome_of_counter {v : Value} (hc : v.isCounterType = true) :
    ∃ v1, v.plusOne = some v1 := by
  cases v <;> simp only [Value.isCounterType, reduceCtorEq] at hc <;> exact ⟨_, rfl⟩

theorem minusOne_isSome_of_counter {v : Value} (hc : v.isCounterType = true)
    (hz : v.isUnsignedZero = false) : ∃ v1, v.minusOne = some v1 := by
  cases v <;> simp only [Value.isCounterType, reduceCtorEq] at hc <;>
    simp only [Value.isUnsignedZero, decide_eq_false_iff_not] at hz <;>
    simp only [Value.minusOne, hz, if_false] <;> exact ⟨_, rfl⟩

/-- At its creation time an item is expired exactly when its lifespan is
negative. -/
theorem isExpire_at_createdTime (v : Value) (t D : Int) :
    MemoryItem.isExpire { val := v, createdTime := t, lifespan := D } t = decide (D < 0) := by
  unfold MemoryItem.isExpire
  by_cases h0 : D = 0
  · simp [h0]
  · simp [h0, subMono_self]

/-- C6 (as amended): for a present key `k` whose stored value `n` is in range and
of type int, int32, int64, uint, uint32 or uint64, `Incr(k)` succeeds and
replaces the stored value by Go's `n + 1` of the same runtime type, and a
successful `Decr(k)` replaces it by `n - 1` of the same runtime type, creation
time and lifespan staying as they were.  After `Put(k, 1, D)` at time `t` with
the int 1, `Incr(k)` succeeds and stores the int 2, and the following
`Decr(k)` succeeds and stores the int 1; `Get(k)` returns the int 2 and then
the int 1 at every read time at which the item is not expired, which includes
the time `t` when `D` is not negative, and returns nil at every read time at
which the item is expired, which includes the time `t` when `D` is negative. -/
theorem Incr_Decr_write_adjacent (mc : MemoryCache) (k : String) (itm : MemoryItem)
    (h : mapLookup k mc.items = some itm) (hr : itm.val.inRange)
    (hc : itm.val.isCounterType = true) :
    ((mc.Incr k).2 = none ∧
      ∃ v1, itm.val.plusOne = some v1 ∧
        mapLookup k (mc.Incr k).1.items = some { itm with val := v1 }) ∧
    ((mc.Decr k).2 = none →
      ∃ v1, itm.val.minusOne = some v1 ∧
        mapLookup k (mc.Decr k).1.items = some { itm with val := v1 }) ∧
    (∀ (D t : Int),
      ((mc.Put k (.int 1) D t).1.Incr k).2 = none ∧
      mapLookup k ((mc.Put k (.int 1) D t).1.Incr k).1.items =
        some { val := .int 2, createdTime := t, lifespan := D } ∧
      (((mc.Put k (.int 1) D t).1.Incr k).1.Decr k).2 = none ∧
      mapLookup k (((mc.Put k (.int 1) D t).1.Incr k).1.Decr k).1.items =
        some { val := .int 1, createdTime := t, lifespan := D } ∧
      (∀ now : Int,
        MemoryItem.isExpire { val := .int 1, createdTime := t, lifespan := D } now = false →
        ((mc.Put k (.int 1) D t).1.Incr k).1.Get k now = Value.int 2 ∧
        (((mc.Put k (.int 1) D t).1.Incr k).1.Decr k).1.Get k now = Value.int 1) ∧
      (∀ now : Int,
        MemoryItem.isExpire { val := .int 1, createdTime := t, lifespan := D } now = true →
        ((mc.Put k (.int 1) D t).1.Incr k).1.Get k now = Value.nil ∧
        (((mc.Put k (.int 1) D t).1.Incr k).1.Decr k).1.Get k now = Value.nil) ∧
      (0 ≤ D →
        ((mc.Put k (.int 1) D t).1.Incr k).1.Get k t = Value.int 2 ∧
        (((mc.Put k (.int 1) D t).1.Incr k).1.Decr k).1.Get k t = Value.int 1) ∧
      (D < 0 →
        ((mc.Put k (.int 1) D t).1.Incr k).1.Get k t = Value.nil ∧
        (((mc.Put k (.int 1) D t).1.Incr k).1.Decr k).1.Get k t = Value.nil)) := by
  refine ⟨?_, ?_, ?_⟩
  · obtain ⟨v1, hp⟩ := plusOne_isSome_of_counter hc
    have hI := Incr_of_plusOne h hr hp
    refine ⟨by rw [hI], v1, hp, ?_⟩
    rw [hI]
    simp only [mapLookup_mapSetVal_self, h, Option.map_some']
  · intro hok
    have hz : itm.val.isUnsignedZero = false := by
      by_contra hz
      rw [Bool.not_eq_false] at hz
      rw [Decr_of_unsignedZero h hz] at hok
      cases hok
    obtain ⟨v1, hp⟩ := minusOne_isSome_of_counter hc hz
    have hD := Decr_of_minusOne h hr hp
    refine ⟨v1, hp, ?_⟩
    rw [hD]
    simp only [mapLookup_mapSetVal_self, h, Option.map_some']
  · intro D t
    have hl0 : mapLookup k (mc.Put k (.int 1) D t).1.items =
        some { val := .int 1, createdTime := t, lifespan := D } :=
      mapLookup_mapAssign_self _ _ _
    have hI := @Incr_of_plusOne _ _ _ (Value.int 2) hl0
      (by unfold Value.inRange minSigned maxSigned intSize; norm_num)
      (by simp [Value.plusOne, succSigned, maxSigned, intSize])
    have hl1 : mapLookup k ((mc.Put k (.int 1) D t).1.Incr k).1.items =
        some { val := .int 2, createdTime := t, lifespan := D } := by
      rw [hI]
      simp only [mapLookup_mapSetVal_self, hl0, Option.map_some']
    have hD := @Decr_of_minusOne _ _ _ (Value.int 1) hl1
      (by unfold Value.inRange minSigned maxSigned intSize; norm_num)
      (by simp [Value.minusOne, predSigned, minSigned, intSize])
    have hl2 : mapLookup k (((mc.Put k (.int 1) D t).1.Incr k).1.Decr k).1.items =
        some { val := .int 1, createdTime := t, lifespan := D } := by
      rw [hD]
      simp only [mapLookup_mapSetVal_self, hl1, Option.map_some']
    have hlive : ∀ now : Int,
        MemoryItem.isExpire { val := .int 1, createdTime := t, lifespan := D } now = false →
        ((mc.Put k (.int 1) D t).1.Incr k).1.Get k now = Value.int 2 ∧
        (((mc.Put k (.int 1) D t).1.Incr k).1.Decr k).1.Get k now = Value.int 1 := by
      intro now he
      have he2 : MemoryItem.isExpire { val := .int 2, createdTime := t, lifespan := D } now
          = false := he
      exact ⟨by simp [MemoryCache.Get, hl1, he2], by simp [MemoryCache.Get, hl2, he]⟩
    have hdead : ∀ now : Int,
        MemoryItem.isExpire { val := .int 1, createdTime := t, lifespan := D } now = true →
        ((mc.Put k (.int 1) D t).1.Incr k).1.Get k now = Value.nil ∧
        (((mc.Put k (.int 1) D t).1.Incr k).1.Decr k).1.Get k now = Value.nil := by
      intro now he
      have he2 : MemoryItem.isExpire { val := .int 2, createdTime := t, lifespan := D } now
          = true := he
      exact ⟨by simp [MemoryCache.Get, hl1, he2], by simp [MemoryCache.Get, hl2, he]⟩
    refine ⟨by rw [hI], hl1, by rw [hD], hl2, hlive, hdead, ?_, ?_⟩
    · intro h0
      exact hlive t (by rw [isExpire_at_createdTime]; simpa using h0)
    · intro h0
      exact hdead t (by rw [isExpire_at_createdTime]; simpa using h0)

theorem Incr_Decr_write_adjacent_witness :
    (exampleCache.Incr "a").2 = none ∧
    ((exampleCache.Put "a" (.int 1) 10 50).1.Incr "a").1.Get "a" 60 = Value.int 2 ∧
    (((exampleCache.Put "a" (.int 1) 10 50).1.Incr "a").1.Decr "a").1.Get "a" 60 =
      Value.int 1 ∧
    ((exampleCache.Put "a" (.int 1) (-5) 50).1.Incr "a").1.Get "a" 50 = Value.nil :=
  ⟨((Incr_Decr_write_adjacent exampleCache "a"
      { val := .int 1, createdTime := 0, lifespan := 10 } (by decide)
      (by unfold Value.inRange; decide) (by decide)).1).1,
   ((Incr_Decr_write_adjacent exampleCache "a"
      { val := .int 1, createdTime := 0, lifespan := 10 } (by decide)
      (by unfold Value.inRange; decide) (by decide)).2.2 10 50).2.2.2.2.1 60 (by decide) |>.1,
   ((Incr_Decr_write_adjacent exampleCache "a"
      { val := .int 1, createdTime := 0, lifespan := 10 } (by decide)
      (by unfold Value.inRange; decide) (by decide)).2.2 10 50).2.2.2.2.1 60 (by decide) |>.2,
   (((Incr_Decr_write_adjacent exampleCache "a"
      { val := .int 1, createdTime := 0, lifespan := 10 } (by decide)
      (by unfold Value.inRange; decide) (by decide)).2.2 (-5) 50).2.2.2.2.2.2.2
        (by decide)).1⟩

/-- C6 (as stated) fails on the reading of `Get`: after `Put("a", 1, -1)` at time
50, `Incr("a")` succeeds and stores the int 2, and `Decr("a")` succeeds, yet
`Get("a")` is nil at time 50 after each of them; and after `Put("a", 1, 10)` at
time 50 and a successful `Incr("a")`, `Get("a")` is nil at time 61. -/
theorem Incr_after_Put_expired_reads_nil :
    ((exampleCache.Put "a" (.int 1) (-1) 50).1.Incr "a").2 = none ∧
    mapLookup "a" ((exampleCache.Put "a" (.int 1) (-1) 50).1.Incr "a").1.items =
      some { val := .int 2, createdTime := 50, lifespan := -1 } ∧
    ((exampleCache.Put "a" (.int 1) (-1) 50).1.Incr "a").1.Get "a" 50 = Value.nil ∧
    (((exampleCache.Put "a" (.int 1) (-1) 50).1.Incr "a").1.Decr "a").2 = none ∧
    (((exampleCache.Put "a" (.int 1) (-1) 50).1.Incr "a").1.Decr "a").1.Get "a" 50 =
      Value.nil ∧
    ((exampleCache.Put "a" (.int 1) 10 50).1.Incr "a").2 = none ∧
    ((exampleCache.Put "a" (.int 1) 10 50).1.Incr "a").1.Get "a" 61 = Value.nil := by
  decide

/-- C7: for a present key `k` whose stored value is not of an integer kind (a
string, a float, a bool, nil, or a value of another type), `Incr(k)` and
`Decr(k)` each fail with an error of the unsupported-type kind and return the
store as it was. -/
theorem Incr_Decr_non_integer_fail (mc : MemoryCache) (k : String) (itm : MemoryItem)
    (h : mapLookup k mc.items = some itm) (hn : itm.val.isIntegerKind = false) :
    (mc.Incr k).1 = mc ∧
    (mc.Incr k).2.map CacheError.kind = some ErrorKind.UnsupportedType ∧
    (mc.Decr k).1 = mc ∧
    (mc.Decr k).2.map CacheError.kind = some ErrorKind.UnsupportedType := by
  have hc := not_counter_of_not_integer hn
  rw [Incr_of_not_counter h hc, Decr_of_not_counter h hc]
  exact ⟨rfl, rfl, rfl, rfl⟩

theorem Incr_Decr_non_integer_fail_witness :
    (exampleCache.Incr "n").1 = exampleCache ∧
    (exampleCache.Incr "n").2.map CacheError.kind = some ErrorKind.UnsupportedType ∧
    (exampleCache.Decr "n").1 = exampleCache ∧
    (exampleCache.Decr "n").2.map CacheError.kind = some ErrorKind.UnsupportedType :=
  Incr_Decr_non_integer_fail exampleCache "n"
    { val := .nil, createdTime := 0, lifespan := 0 } (by decide) (by decide)

/-- C8 (as amended): for a present key `k`, `Incr(k)` fails with an error of the
unsupported-type kind exactly when the stored value is not of one of the
types int, int32, int64, uint, uint32, uint64, and succeeds for every value of
these six types; likewise `Decr(k)` fails with an error of the unsupported-type
kind exactly when the stored value is not of one of the six types, and
succeeds for every value of these types other than an unsigned zero. -/
theorem Incr_Decr_unsupported_iff_not_counter (mc : MemoryCache) (k : String)
    (itm : MemoryItem) (h : mapLookup k mc.items = some itm) :
    ((mc.Incr k).2.map CacheError.kind = some ErrorKind.UnsupportedType ↔
      itm.val.isCounterType = false) ∧
    (itm.val.isCounterType = true → (mc.Incr k).2 = none) ∧
    ((mc.Decr k).2.map CacheError.kind = some ErrorKind.UnsupportedType ↔
      itm.val.isCounterType = false) ∧
    (itm.val.isCounterType = true → itm.val.isUnsignedZero = false →
      (mc.Decr k).2 = none) := by
  refine ⟨⟨?_, ?_⟩, fun hc => Incr_ok_of_counter h hc, ⟨?_, ?_⟩,
    fun hc hz => Decr_ok_of_counter h hc hz⟩
  · intro he
    by_contra hc
    rw [Bool.not_eq_false] at hc
    rw [Incr_ok_of_counter h hc] at he
    cases he
  · intro hc
    rw [Incr_of_not_counter h hc]
    rfl
  · intro he
    by_contra hc
    rw [Bool.not_eq_false] at hc
    cases hz : itm.val.isUnsignedZero with
    | false =>
      rw [Decr_ok_of_counter h hc hz] at he
      cases he
    | true =>
      rw [Decr_of_unsignedZero h hz] at he
      cases he
  · intro hc
    rw [Decr_of_not_counter h hc]
    rfl

theorem Incr_Decr_unsupported_iff_not_counter_witness :
    (exampleCache.Incr "a").2 = none ∧ (exampleCache.Decr "a").2 = none :=
  ⟨(Incr_Decr_unsupported_iff_not_counter exampleCache "a"
      { val := .int 1, createdTime := 0, lifespan := 10 } (by decide)).2.1 (by decide),
   (Incr_Decr_unsupported_iff_not_counter exampleCache "a"
      { val := .int 1, createdTime := 0, lifespan := 10 } (by decide)).2.2.2
        (by decide) (by decide)⟩

/-- C8 (as stated) fails on an int8: the stored value is of a signed integer
kind, yet `Incr` and `Decr` (on the non-zero value 1) fail with an error of the
unsupported-type kind and leave the value as it was. -/
theorem Incr_Decr_int8_unsupported :
    Value.isIntegerKind (.int8 1) = true ∧
    mapLookup "c" int8Cache.items = some { val := .int8 1, createdTime := 0, lifespan := 0 } ∧
    int8Cache.Incr "c" = (int8Cache, some CacheError.notCounterIncr) ∧
    (int8Cache.Incr "c").2.map CacheError.kind = some ErrorKind.UnsupportedType ∧
    int8Cache.Decr "c" = (int8Cache, some CacheError.notCounterDecr) ∧
    (int8Cache.Decr "c").2.map CacheError.kind = some ErrorKind.UnsupportedType := by
  decide

/-- C9: for a present key `k`, `Decr(k)` fails with an error of the underflow
kind exactly when the stored value is zero of type uint, uint32 or uint64; in
that case the store is returned as it was, the value staying 0; and on a value
of a signed integer kind `Decr(k)` does not fail with an error of the underflow
kind. -/
theorem Decr_underflow_iff_unsigned_zero (mc : MemoryCache) (k : String)
    (itm : MemoryItem) (h : mapLookup k mc.items = some itm) :
    ((mc.Decr k).2.map CacheError.kind = some ErrorKind.Underflow ↔
      itm.val.isUnsignedZero = true) ∧
    (itm.val.isUnsignedZero = true →
      mc.Decr k = (mc, some CacheError.lessThanZero) ∧
      mapLookup k (mc.Decr k).1.items = some itm) ∧
    (itm.val.isSignedKind = true →
      (mc.Decr k).2.map CacheError.kind ≠ some ErrorKind.Underflow) := by
  have hiff : (mc.Decr k).2.map CacheError.kind = some ErrorKind.Underflow ↔
      itm.val.isUnsignedZero = true := by
    constructor
    · intro he
      by_contra hz
      rw [Bool.not_eq_true] at hz
      cases hc : itm.val.isCounterType with
      | false =>
        rw [Decr_of_not_counter h hc] at he
        cases he
      | true =>
        rw [Decr_ok_of_counter h hc hz] at he
        cases he
    · intro hz
      rw [Decr_of_unsignedZero h hz]
      rfl
  refine ⟨hiff, ?_, ?_⟩
  · intro hz
    rw [Decr_of_unsignedZero h hz]
    exact ⟨rfl, h⟩
  · intro hs he
    have hz := hiff.mp he
    obtain ⟨val, c, l⟩ := itm
    cases val <;> simp_all [Value.isSignedKind, Value.isUnsignedZero]

theorem Decr_underflow_iff_unsigned_zero_witness :
    zeroCounterCache.Decr "z" = (zeroCounterCache, some CacheError.lessThanZero) ∧
    (zeroCounterCache.Decr "s").2.map CacheError.kind ≠ some ErrorKind.Underflow :=
  ⟨((Decr_underflow_iff_unsigned_zero zeroCounterCache "z"
      { val := .uint32 0, createdTime := 0, lifespan := 0 } (by decide)).2.1 (by decide)).1,
   (Decr_underflow_iff_unsigned_zero zeroCounterCache "s"
      { val := .int64 (minSigned 64), createdTime := 0, lifespan := 0 } (by decide)).2.2
        (by decide)⟩

/-! ## `GetMulti` and `ClearAll` -/

theorem GetMulti_foldl (mc : MemoryCache) (now : Int) (names : List String) (acc : List Value) :
    names.foldl (fun rc name => rc ++ [mc.Get name now]) acc =
      acc ++ names.map (fun name => mc.Get name now) := by
  induction names generalizing acc with
  | nil => simp
  | cons name rest ih => rw [List.foldl_cons, ih]; simp

theorem GetMulti_eq_map (mc : MemoryCache) (names : List String) (now : Int) :
    mc.GetMulti names now = names.map (fun name => mc.Get name now) := by
  unfold MemoryCache.GetMulti
  rw [GetMulti_foldl]
  rfl

theorem Get_congr {mc mc2 : MemoryCache} {k : String}
    (h : mapLookup k mc2.items = mapLookup k mc.items) (now : Int) :
    mc2.Get k now = mc.Get k now := by
  unfold MemoryCache.Get
  rw [h]

theorem IsExist_congr {mc mc2 : MemoryCache} {k : String}
    (h : mapLookup k mc2.items = mapLookup k mc.items) (now : Int) :
    mc2.IsExist k now = mc.IsExist k now := by
  unfold MemoryCache.IsExist
  rw [h]

/-- C11: `GetMulti(ks)` returns a sequence of the length of `ks` whose element
at every index `i` is `Get(ks[i])`, duplicates and missing keys included; it
returns the empty sequence for the empty list; and two stores that map every
key to the same item, in whatever order the entries were inserted, give the
same result. -/
theorem GetMulti_positional (mc : MemoryCache) (ks : List String) (now : Int) :
    (mc.GetMulti ks now).length = ks.length ∧
    (∀ i (hi : i < ks.length),
      (mc.GetMulti ks now)[i]? = some (mc.Get (ks.get ⟨i, hi⟩) now)) ∧
    mc.GetMulti ks now = ks.map (fun k => mc.Get k now) ∧
    mc.GetMulti [] now = [] ∧
    (∀ mc2 : MemoryCache, (∀ k, mapLookup k mc2.items = mapLookup k mc.items) →
      mc2.GetMulti ks now = mc.GetMulti ks now) := by
  refine ⟨?_, ?_, GetMulti_eq_map mc ks now, rfl, ?_⟩
  · rw [GetMulti_eq_map, List.length_map]
  · intro i hi
    rw [GetMulti_eq_map, List.getElem?_map, List.getElem?_eq_getElem hi]
    rfl
  · intro mc2 h
    rw [GetMulti_eq_map, GetMulti_eq_map]
    exact List.map_congr_left (fun k _ => Get_congr (h k) now)

theorem GetMulti_positional_witness :
    (exampleCache.GetMulti ["n", "a", "zz", "a"] 5)[3]? = some (Value.int 1) ∧
    exampleCacheSwapped.GetMulti ["n", "a", "zz", "a"] 5 =
      exampleCache.GetMulti ["n", "a", "zz", "a"] 5 :=
  ⟨(GetMulti_positional exampleCache ["n", "a", "zz", "a"] 5).2.1 3 (by decide),
   (GetMulti_positional exampleCache ["n", "a", "zz", "a"] 5).2.2.2.2 exampleCacheSwapped
     (by
       intro k
       by_cases h1 : "n" = k
       · subst h1; decide
       · by_cases h2 : "a" = k
         · subst h2; decide
         · simp [exampleCache, exampleCacheSwapped, mapLookup, h1, h2])⟩

/-- C12: `ClearAll()` returns no error and leaves the map empty, so that
`IsExist(k)` is false and `Get(k)` is nil for every key `k` at every time. -/
theorem ClearAll_empties (mc : MemoryCache) :
    mc.ClearAll.2 = none ∧ mc.ClearAll.1.items = [] ∧
    mc.ClearAll.1.config = mc.config ∧
    (∀ (k : String) (now : Int),
      mc.ClearAll.1.IsExist k now = false ∧ mc.ClearAll.1.Get k now = Value.nil ∧
      k ∉ mapKeys mc.ClearAll.1.items) := by
  refine ⟨rfl, rfl, rfl, ?_⟩
  intro k now
  simp [MemoryCache.ClearAll, MemoryCache.IsExist, MemoryCache.Get, mapLookup, mapKeys]

/-! ## The reclaim sweep on maps with distinct keys -/

theorem uniqueKeys_cons {k : String} {itm : MemoryItem} {rest : Items}
    (h : uniqueKeys ((k, itm) :: rest)) : k ∉ mapKeys rest ∧ uniqueKeys rest := by
  simpa [uniqueKeys, mapKeys] using h

theorem uniqueKeys_filter (p : String × MemoryItem → Bool) {m : Items} (h : uniqueKeys m) :
    uniqueKeys (m.filter p) :=
  List.Nodup.sublist ((List.filter_sublist m).map Prod.fst) h

theorem mapKeys_filter_subset (p : String × MemoryItem → Bool) {m : Items} {k : String}
    (h : k ∈ mapKeys (m.filter p)) : k ∈ mapKeys m :=
  ((List.filter_sublist m).map Prod.fst).subset h

theorem eq_of_uniqueKeys {m : Items} (h : uniqueKeys m) {e1 e2 : String × MemoryItem}
    (h1 : e1 ∈ m) (h2 : e2 ∈ m) (hk : e1.1 = e2.1) : e1 = e2 :=
  List.inj_on_of_nodup_map h h1 h2 hk

theorem mapLookup_of_mem {m : Items} (h : uniqueKeys m) {k : String} {itm : MemoryItem}
    (hm : (k, itm) ∈ m) : mapLookup k m = some itm := by
  cases hl : mapLookup k m with
  | none =>
    have := mapLookup_eq_none_iff.mp hl
    exact absurd (List.mem_map_of_mem Prod.fst hm) this
  | some i2 =>
    have := eq_of_uniqueKeys h (mapLookup_mem hl) hm rfl
    rw [(Prod.mk.inj this).2]

/-- On distinct keys, looking a key up after filtering the entries on their
items is filtering the item looked up. -/
theorem mapLookup_filter (p : MemoryItem → Bool) {m : Items} (h : uniqueKeys m) (k : String) :
    mapLookup k (m.filter (fun e => p e.2)) = (mapLookup k m).filter p := by
  induction m with
  | nil => rfl
  | cons e rest ih =>
    obtain ⟨k1, i1⟩ := e
    obtain ⟨hk1, hrest⟩ := uniqueKeys_cons h
    rw [mapLookup_cons, List.filter_cons]
    by_cases hk : k1 = k
    · rw [if_pos hk]
      cases hp : p i1 with
      | true =>
        simp only [hp, if_true, mapLookup_cons, if_pos hk, Option.filter]
      | false =>
        simp only [hp, Bool.false_eq_true, if_false, Option.filter]
        apply mapLookup_eq_none_iff.mpr
        intro hmem
        exact hk1 (hk ▸ mapKeys_filter_subset _ hmem)
    · rw [if_neg hk]
      cases hp : p i1 with
      | true =>
        simp only [hp, if_true, mapLookup_cons, if_neg hk]
        exact ih hrest
      | false =>
        simp only [hp, Bool.false_eq_true, if_false]
        exact ih hrest

theorem foldl_mapDelete_eq_filter (keys : List String) (m : Items) :
    keys.foldl (fun m key => mapDelete key m) m =
      m.filter (fun e => decide (e.1 ∉ keys)) := by
  induction keys generalizing m with
  | nil => simp
  | cons key rest ih =>
    rw [List.foldl_cons, ih, mapDelete, List.filter_filter]
    apply List.filter_congr
    intro e _
    by_cases h1 : e.1 = key <;> by_cases h2 : e.1 ∈ rest <;> simp [h1, h2]

/-- With a configuration present the loop of `expiredKeys` returns the keys of
the expired entries, and one call per expired entry when `TimeoutFn` is set. -/
theorem expiredKeysLoop_some (conf : MemoryConf) (now : Int) (m : Items) :
    expiredKeysLoop (some conf) now m =
      some ((expiredEntries now m).map Prod.fst,
        if conf.TimeoutFn then (expiredEntries now m).map (fun e => (e.1, e.2.val)) else []) := by
  induction m with
  | nil => cases conf.TimeoutFn <;> rfl
  | cons e rest ih =>
    obtain ⟨k1, i1⟩ := e
    unfold expiredKeysLoop
    rw [ih]
    cases he : i1.isExpire now with
    | true =>
      cases hf : conf.TimeoutFn <;> simp [expiredEntries, List.filter_cons, he, hf]
    | false =>
      simp [expiredEntries, List.filter_cons, he]

/-- On distinct keys, deleting the keys of the expired entries leaves the
entries that are not expired. -/
theorem filter_not_expiredKeys {m : Items} (h : uniqueKeys m) (now : Int) :
    m.filter (fun e => decide (e.1 ∉ (expiredEntries now m).map Prod.fst)) =
      liveEntries now m := by
  unfold liveEntries
  apply List.filter_congr
  intro e he
  cases hx : e.2.isExpire now with
  | true =>
    have : e.1 ∈ (expiredEntries now m).map Prod.fst :=
      List.mem_map_of_mem Prod.fst (List.mem_filter.mpr ⟨he, hx⟩)
    simp [this]
  | false =>
    have : e.1 ∉ (expiredEntries now m).map Prod.fst := by
      intro hmem
      obtain ⟨e2, he2, hk⟩ := List.mem_map.mp hmem
      have h2 := List.mem_filter.mp he2
      have := eq_of_uniqueKeys h h2.1 he hk
      rw [this, hx] at h2
      exact Bool.false_ne_true h2.2
    simp [this]

theorem expiredKeysLoop_keys {config : Option MemoryConf} {now : Int} {m : Items}
    {keys : List String} {calls : List (String × Value)}
    (h : expiredKeysLoop config now m = some (keys, calls)) :
    keys = (expiredEntries now m).map Prod.fst := by
  induction m generalizing keys calls with
  | nil =>
    simp only [expiredKeysLoop, Option.some.injEq, Prod.mk.injEq] at h
    rw [← h.1]
    rfl
  | cons e rest ih =>
    obtain ⟨k1, i1⟩ := e
    unfold expiredKeysLoop at h
    cases he : i1.isExpire now with
    | true =>
      rw [he, if_pos rfl] at h
      cases config with
      | none => simp at h
      | some conf =>
        cases hr : expiredKeysLoop (some conf) now rest with
        | none => simp [hr] at h
        | some r =>
          obtain ⟨keys1, calls1⟩ := r
          simp only [hr, Option.some.injEq, Prod.mk.injEq] at h
          rw [← h.1, ih hr]
          simp [expiredEntries, List.filter_cons, he]
    | false =>
      rw [he, if_neg Bool.false_ne_true] at h
      rw [ih h]
      simp [expiredEntries, List.filter_cons, he]

/-- On distinct keys a wake of the reclaimer leaves the entries that are not
expired at the scan time, and nothing else. -/
theorem reclaim_items {mc mc1 : MemoryCache} {now : Int} (hu : uniqueKeys mc.items)
    (h : mc.reclaim now = some mc1) :
    mc1.items = liveEntries now mc.items ∧ mc1.config = mc.config := by
  obtain ⟨keys, calls, hx, hcfg, hi⟩ := reclaim_state h
  have hk := expiredKeysLoop_keys hx
  rw [hi, foldl_mapDelete_eq_filter, hk, filter_not_expiredKeys hu]
  exact ⟨rfl, hcfg⟩

theorem reclaim_of_config {mc : MemoryCache} {conf : MemoryConf} (now : Int)
    (hc : mc.config = some conf) : ∃ mc1, mc.reclaim now = some mc1 := by
  unfold MemoryCache.reclaim MemoryCache.expiredKeys
  rw [hc, expiredKeysLoop_some]
  dsimp only
  split <;> exact ⟨_, rfl⟩

/-- C13: on a map with distinct keys and a configuration present, one wake of
the reclaimer scanning at time `t` returns a store whose map holds exactly the
entries that were not expired at `t`, each with its value, creation time and
lifespan unchanged: a key is mapped afterwards to the item it had when that
item was not expired at `t`, and has no entry otherwise; no entry expired at
`t` remains; the configuration is unchanged. -/
theorem reclaim_removes_exactly_expired (mc : MemoryCache) (conf : MemoryConf) (t : Int)
    (hc : mc.config = some conf) (hu : uniqueKeys mc.items) :
    ∃ mc1, mc.reclaim t = some mc1 ∧
      mc1.items = liveEntries t mc.items ∧
      mc1.config = mc.config ∧
      (∀ k, mapLookup k mc1.items =
        (mapLookup k mc.items).filter (fun itm => !itm.isExpire t)) ∧
      (∀ e ∈ mc1.items, e ∈ mc.items ∧ e.2.isExpire t = false) ∧
      (∀ e ∈ mc.items, e.2.isExpire t = false → e ∈ mc1.items) ∧
      uniqueKeys mc1.items := by
  obtain ⟨mc1, h⟩ := reclaim_of_config t hc
  obtain ⟨hi, hcfg⟩ := reclaim_items hu h
  refine ⟨mc1, h, hi, hcfg, ?_, ?_, ?_, ?_⟩
  · intro k
    rw [hi]
    exact mapLookup_filter (fun itm => !itm.isExpire t) hu k
  · intro e he
    rw [hi] at he
    have := List.mem_filter.mp he
    exact ⟨this.1, by simpa using this.2⟩
  · intro e he hx
    rw [hi]
    exact List.mem_filter.mpr ⟨he, by simp [hx]⟩
  · rw [hi]
    exact uniqueKeys_filter _ hu

theorem reclaim_removes_exactly_expired_witness :
    (exampleCache.reclaim 50).map (fun mc1 => mc1.items) =
      some [("n", { val := .nil, createdTime := 0, lifespan := 0 })] := by
  obtain ⟨mc1, h, hi, _⟩ := reclaim_removes_exactly_expired exampleCache
    { CheckPeriodMs := 500, TimeoutFn := true } 50 rfl (by unfold uniqueKeys; decide)
  rw [h, Option.map_some', hi]
  decide

/-! ## The sleep duration of the reclaimer -/

/-- C14 (as amended): for every configured `CheckPeriodMs` up to 9223372036854,
the largest count of milliseconds a duration can hold (negative, zero and
small values included), the duration computed at the head of `checkPeriod` is
`max(CheckPeriodMs, 40)` milliseconds, which is at least 40 ms, and the stored
`CheckPeriodMs` is raised to that maximum.  For every larger `CheckPeriodMs`
the `int64` product with `time.Millisecond` wraps and the duration is not
`max(CheckPeriodMs, 40)` milliseconds; from 9223372036855 to 18446744073709
it is negative, hence below 40 ms. -/
theorem checkPeriodDur_floor (conf : MemoryConf) :
    (conf.CheckPeriodMs ≤ 9223372036854 →
      (checkPeriodDur conf).2 = max conf.CheckPeriodMs 40 * Millisecond ∧
      40 * Millisecond ≤ (checkPeriodDur conf).2 ∧
      (checkPeriodDur conf).1.CheckPeriodMs = max conf.CheckPeriodMs 40 ∧
      (checkPeriodDur conf).1.TimeoutFn = conf.TimeoutFn) ∧
    (9223372036854 < conf.CheckPeriodMs →
      (checkPeriodDur conf).2 ≠ max conf.CheckPeriodMs 40 * Millisecond) ∧
    (9223372036854 < conf.CheckPeriodMs → conf.CheckPeriodMs ≤ 18446744073709 →
      (checkPeriodDur conf).2 < 0 ∧ (checkPeriodDur conf).2 < 40 * Millisecond) := by
  refine ⟨?_, ?_, ?_⟩
  · intro h
    unfold checkPeriodDur Millisecond
    by_cases h40 : conf.CheckPeriodMs < 40
    · have hm : max conf.CheckPeriodMs 40 = 40 := max_eq_right (le_of_lt h40)
      simp only [if_pos h40, hm]
      refine ⟨?_, ?_, ?_, ?_⟩
      · unfold wrapSigned; norm_num
      · unfold wrapSigned; norm_num
      · trivial
      · trivial
    · have hm : max conf.CheckPeriodMs 40 = conf.CheckPeriodMs :=
        max_eq_left (not_lt.mp h40)
      simp only [if_neg h40, hm]
      have hw : wrapSigned 64 (conf.CheckPeriodMs * 1000000) = conf.CheckPeriodMs * 1000000 :=
        wrapSigned_of_inRange (by norm_num; omega) (by norm_num; omega)
      rw [hw]
      refine ⟨?_, ?_, ?_, ?_⟩
      · trivial
      · omega
      · trivial
      · trivial
  · intro h
    have h40 : ¬ conf.CheckPeriodMs < 40 := by omega
    have hm : max conf.CheckPeriodMs 40 = conf.CheckPeriodMs :=
      max_eq_left (not_lt.mp h40)
    unfold checkPeriodDur Millisecond
    simp only [if_neg h40, hm]
    unfold wrapSigned
    norm_num
    omega
  · intro h h2
    have h40 : ¬ conf.CheckPeriodMs < 40 := by omega
    have hx1 : (9223372036854775808 : Int) ≤ conf.CheckPeriodMs * 1000000 := by omega
    have hx2 : conf.CheckPeriodMs * 1000000 < (18446744073709551616 : Int) := by omega
    unfold checkPeriodDur Millisecond
    simp only [if_neg h40]
    unfold wrapSigned
    norm_num
    generalize conf.CheckPeriodMs * 1000000 = x at hx1 hx2 ⊢
    constructor <;> omega

theorem checkPeriodDur_floor_witness :
    (checkPeriodDur { CheckPeriodMs := -7, TimeoutFn := false }).2 = 40 * Millisecond ∧
    (checkPeriodDur { CheckPeriodMs := 9223372036854, TimeoutFn := false }).2 =
      9223372036854 * Millisecond ∧
    (checkPeriodDur { CheckPeriodMs := 9223372036856, TimeoutFn := false }).2 < 0 :=
  ⟨((checkPeriodDur_floor { CheckPeriodMs := -7, TimeoutFn := false }).1 (by decide)).1,
   ((checkPeriodDur_floor { CheckPeriodMs := 9223372036854, TimeoutFn := false }).1
     (by decide)).1,
   ((checkPeriodDur_floor { CheckPeriodMs := 9223372036856, TimeoutFn := false }).2.2
     (by decide) (by decide)).1⟩

/-- C14 (as stated) fails for a large `CheckPeriodMs`: at 9223372036855 the
`int64` product with `time.Millisecond` wraps to a negative duration, which is
below 40 ms and is not `max(CheckPeriodMs, 40)` milliseconds. -/
theorem checkPeriodDur_overflows :
    (checkPeriodDur { CheckPeriodMs := 9223372036855, TimeoutFn := false }).2 =
      -9223372036854551616 ∧
    (checkPeriodDur { CheckPeriodMs := 9223372036855, TimeoutFn := false }).2 <
      40 * Millisecond ∧
    (checkPeriodDur { CheckPeriodMs := 9223372036855, TimeoutFn := false }).2 ≠
      max 9223372036855 40 * Millisecond := by
  decide

/-! ## Start of the cache -/

/-- C16, the code at the failing inputs: `StartAndGC` with a configuration that
is not a `*MemoryConf` (a string, the nil interface) ends in a run-time panic
instead of a result; with a nil `*MemoryConf` it returns a nil error and the
started goroutine ends in a run-time panic at its first statement; with a
non-nil `*MemoryConf` it returns a nil error and the goroutine reaches its
sleep. -/
theorem StartAndGC_panics_on_bad_config :
    NewMemoryCache.StartAndGC (.other (.string "500")) = none ∧
    NewMemoryCache.StartAndGC (.other .nil) = none ∧
    NewMemoryCache.StartAndGC (.memoryConf none) =
      some ({ items := [], config := none }, none) ∧
    MemoryCache.checkPeriodHead { items := [], config := none } = none ∧
    NewMemoryCache.StartAndGC (.memoryConf (some { CheckPeriodMs := 500, TimeoutFn := true })) =
      some ({ items := [], config := some { CheckPeriodMs := 500, TimeoutFn := true } }, none) ∧
    MemoryCache.checkPeriodHead
        { items := [], config := some { CheckPeriodMs := 500, TimeoutFn := true } } =
      some ({ items := [], config := some { CheckPeriodMs := 500, TimeoutFn := true } },
        500000000) := by
  decide

/-! ## Key-not-found and the nil value -/

theorem Incr_error_of_entry {mc : MemoryCache} {k : String} {itm : MemoryItem}
    (h : mapLookup k mc.items = some itm) :
    (mc.Incr k).2 = none ∨ (mc.Incr k).2 = some CacheError.notCounterIncr := by
  cases hc : itm.val.isCounterType with
  | true => exact Or.inl (Incr_ok_of_counter h hc)
  | false => right; rw [Incr_of_not_counter h hc]

theorem Decr_error_of_entry {mc : MemoryCache} {k : String} {itm : MemoryItem}
    (h : mapLookup k mc.items = some itm) :
    (mc.Decr k).2 = none ∨ (mc.Decr k).2 = some CacheError.notCounterDecr ∨
      (mc.Decr k).2 = some CacheError.lessThanZero := by
  cases hc : itm.val.isCounterType with
  | true =>
    cases hz : itm.val.isUnsignedZero with
    | true => right; right; rw [Decr_of_unsignedZero h hz]
    | false => exact Or.inl (Decr_ok_of_counter h hc hz)
  | false => right; left; rw [Decr_of_not_counter h hc]

theorem Delete_error_of_entry {mc : MemoryCache} {k : String} {itm : MemoryItem}
    (h : mapLookup k mc.items = some itm) : (mc.Delete k).2 = none := by
  simp [MemoryCache.Delete, h, mapLookup_mapDelete_self]

/-- C17: `Delete(k)`, `Incr(k)` and `Decr(k)` each fail with an error of the
key-not-found kind exactly when `k` has no entry in the map; on a key whose
item is expired but still in the map they do not fail with that kind of
error, although `Get(k)` is nil and `IsExist(k)` is false there. -/
theorem KeyNotFound_iff_no_entry (mc : MemoryCache) (k : String) :
    ((mc.Delete k).2.map CacheError.kind = some ErrorKind.KeyNotFound ↔
      k ∉ mapKeys mc.items) ∧
    ((mc.Incr k).2.map CacheError.kind = some ErrorKind.KeyNotFound ↔
      k ∉ mapKeys mc.items) ∧
    ((mc.Decr k).2.map CacheError.kind = some ErrorKind.KeyNotFound ↔
      k ∉ mapKeys mc.items) ∧
    (∀ (itm : MemoryItem) (now : Int), mapLookup k mc.items = some itm →
      itm.isExpire now = true →
      mc.Get k now = Value.nil ∧ mc.IsExist k now = false ∧
      (mc.Delete k).2.map CacheError.kind ≠ some ErrorKind.KeyNotFound ∧
      (mc.Incr k).2.map CacheError.kind ≠ some ErrorKind.KeyNotFound ∧
      (mc.Decr k).2.map CacheError.kind ≠ some ErrorKind.KeyNotFound) := by
  have hD : ∀ itm, mapLookup k mc.items = some itm →
      (mc.Delete k).2.map CacheError.kind ≠ some ErrorKind.KeyNotFound := by
    intro itm h
    rw [Delete_error_of_entry h]
    simp
  have hI : ∀ itm, mapLookup k mc.items = some itm →
      (mc.Incr k).2.map CacheError.kind ≠ some ErrorKind.KeyNotFound := by
    intro itm h
    rcases Incr_error_of_entry h with h1 | h1 <;> rw [h1] <;> simp [CacheError.kind]
  have hR : ∀ itm, mapLookup k mc.items = some itm →
      (mc.Decr k).2.map CacheError.kind ≠ some ErrorKind.KeyNotFound := by
    intro itm h
    rcases Decr_error_of_entry h with h1 | h1 | h1 <;> rw [h1] <;> simp [CacheError.kind]
  have hnone : k ∉ mapKeys mc.items →
      (mc.Delete k).2 = some CacheError.keyNotExist ∧
      (mc.Incr k).2 = some CacheError.keyNotExist ∧
      (mc.Decr k).2 = some CacheError.keyNotExist := by
    intro hk
    have hl := mapLookup_eq_none_iff.mpr hk
    simp [MemoryCache.Delete, MemoryCache.Incr, MemoryCache.Decr, hl]
  have hentry : k ∈ mapKeys mc.items → ∃ itm, mapLookup k mc.items = some itm :=
    fun hk => mapLookup_isSome_iff.mpr hk
  refine ⟨⟨?_, ?_⟩, ⟨?_, ?_⟩, ⟨?_, ?_⟩, ?_⟩
  · intro he
    by_contra hk
    obtain ⟨itm, h⟩ := hentry hk
    exact hD itm h he
  · intro hk
    rw [(hnone hk).1]
    rfl
  · intro he
    by_contra hk
    obtain ⟨itm, h⟩ := hentry hk
    exact hI itm h he
  · intro hk
    rw [(hnone hk).2.1]
    rfl
  · intro he
    by_contra hk
    obtain ⟨itm, h⟩ := hentry hk
    exact hR itm h he
  · intro hk
    rw [(hnone hk).2.2]
    rfl
  · intro itm now h he
    refine ⟨?_, ?_, hD itm h, hI itm h, hR itm h⟩
    · simp [MemoryCache.Get, h, he]
    · simp [MemoryCache.IsExist, h, he]

theorem KeyNotFound_iff_no_entry_witness :
    exampleCache.Get "a" 50 = Value.nil ∧ exampleCache.IsExist "a" 50 = false ∧
    (exampleCache.Delete "a").2.map CacheError.kind ≠ some ErrorKind.KeyNotFound ∧
    (exampleCache.Incr "a").2.map CacheError.kind ≠ some ErrorKind.KeyNotFound ∧
    (exampleCache.Decr "a").2.map CacheError.kind ≠ some ErrorKind.KeyNotFound :=
  (KeyNotFound_iff_no_entry exampleCache "a").2.2.2
    { val := .int 1, createdTime := 0, lifespan := 10 } 50 (by decide) (by decide)

/-- C18: after `Put(k, nil, 0)` the key is reported present by `IsExist(k)` while
`Get(k)` returns nil, the result it also returns for a key without entry (for
which `IsExist(k)` is false), at every time; and in every state, whenever
`Get(k)` is not nil, `IsExist(k)` is true. -/
theorem Get_nil_is_ambiguous (mc : MemoryCache) (k : String) (t now : Int) :
    ((mc.Put k .nil 0 t).1.IsExist k now = true ∧
      (mc.Put k .nil 0 t).1.Get k now = Value.nil) ∧
    (k ∉ mapKeys mc.items → mc.IsExist k now = false ∧ mc.Get k now = Value.nil) ∧
    (mc.Get k now ≠ Value.nil → mc.IsExist k now = true) := by
  refine ⟨?_, ?_, ?_⟩
  · have hl : mapLookup k (mc.Put k .nil 0 t).1.items =
        some { val := .nil, createdTime := t, lifespan := 0 } := mapLookup_mapAssign_self _ _ _
    simp [MemoryCache.IsExist, MemoryCache.Get, hl, MemoryItem.isExpire]
  · intro hk
    have hl := mapLookup_eq_none_iff.mpr hk
    simp [MemoryCache.IsExist, MemoryCache.Get, hl]
  · intro hg
    unfold MemoryCache.Get at hg
    unfold MemoryCache.IsExist
    cases hl : mapLookup k mc.items with
    | none => simp [hl] at hg
    | some itm =>
      cases he : itm.isExpire now with
      | true => simp [hl, he] at hg
      | false => simp [he]

theorem Get_nil_is_ambiguous_witness :
    (exampleCache.IsExist "zz" 5 = false ∧ exampleCache.Get "zz" 5 = Value.nil) ∧
    exampleCache.IsExist "a" 5 = true :=
  ⟨(Get_nil_is_ambiguous exampleCache "zz" 0 5).2.1 (by decide),
   (Get_nil_is_ambiguous exampleCache "a" 0 5).2.2 (by decide)⟩

/-! ## The expiry callback -/

theorem mem_iff_mapLookup {m : Items} (h : uniqueKeys m) (k : String) (itm : MemoryItem) :
    (k, itm) ∈ m ↔ mapLookup k m = some itm :=
  ⟨mapLookup_of_mem h, mapLookup_mem⟩

/-- C15: on a map with distinct keys and a configuration present, the scan of
`expiredKeys` at time `t` collects each key whose item is expired at `t`
once and no other key; when `TimeoutFn` is set it starts one call for each
collected key, with that key and the value stored in its item, and no call
for any other key; when `TimeoutFn` is nil it starts no call and collects the
same keys. -/
theorem expiredKeys_calls_once_per_expired (mc : MemoryCache) (conf : MemoryConf) (t : Int)
    (hc : mc.config = some conf) (hu : uniqueKeys mc.items) :
    ∃ keys calls, mc.expiredKeys t = some (keys, calls) ∧
      keys = (expiredEntries t mc.items).map Prod.fst ∧
      keys.Nodup ∧
      (∀ k, k ∈ keys ↔ ∃ itm, mapLookup k mc.items = some itm ∧ itm.isExpire t = true) ∧
      (conf.TimeoutFn = true →
        calls.map Prod.fst = keys ∧
        (∀ k v, (k, v) ∈ calls ↔
          ∃ itm, mapLookup k mc.items = some itm ∧ itm.isExpire t = true ∧ itm.val = v)) ∧
      (conf.TimeoutFn = false → calls = []) := by
  refine ⟨_, _, by unfold MemoryCache.expiredKeys; rw [hc, expiredKeysLoop_some], rfl,
    ?_, ?_, ?_, ?_⟩
  · exact uniqueKeys_filter _ hu
  · intro k
    constructor
    · intro hk
      obtain ⟨e, he, hek⟩ := List.mem_map.mp hk
      have h2 := List.mem_filter.mp he
      obtain ⟨k1, i1⟩ := e
      refine ⟨i1, ?_, h2.2⟩
      rw [← hek]
      exact mapLookup_of_mem hu h2.1
    · rintro ⟨itm, hl, hx⟩
      exact List.mem_map.mpr ⟨(k, itm), List.mem_filter.mpr ⟨mapLookup_mem hl, hx⟩, rfl⟩
  · intro hf
    rw [if_pos hf]
    refine ⟨by rw [List.map_map]; rfl, ?_⟩
    intro k v
    constructor
    · intro hk
      obtain ⟨e, he, hek⟩ := List.mem_map.mp hk
      have h2 := List.mem_filter.mp he
      obtain ⟨k1, i1⟩ := e
      have hk1 := (Prod.mk.inj hek).1
      have hv1 := (Prod.mk.inj hek).2
      refine ⟨i1, ?_, h2.2, hv1⟩
      rw [← hk1]
      exact mapLookup_of_mem hu h2.1
    · rintro ⟨itm, hl, hx, hv⟩
      exact List.mem_map.mpr
        ⟨(k, itm), List.mem_filter.mpr ⟨mapLookup_mem hl, hx⟩, by rw [← hv]⟩
  · intro hf
    rw [hf]
    rfl

theorem expiredKeys_calls_once_per_expired_witness :
    (exampleCache.expiredKeys 50).map (fun r => (r.1, r.2.map Prod.fst)) =
      some (["a"], ["a"]) := by
  obtain ⟨keys, calls, h, hk, _, _, hcalls, _⟩ :=
    expiredKeys_calls_once_per_expired exampleCache
      { CheckPeriodMs := 500, TimeoutFn := true } 50 rfl (by unfold uniqueKeys; decide)
  rw [h, Option.map_some']
  simp only [(hcalls rfl).1]
  rw [hk]
  decide

/-! ## The sweep and the reads -/

/-- An item expired at a clock reading is expired at every later one. -/
theorem isExpire_mono {mi : MemoryItem} {t t1 : Int} (hc : validInstant mi.createdTime)
    (ht : validInstant t) (ht1 : validInstant t1) (hle : t ≤ t1)
    (h : mi.isExpire t = true) : mi.isExpire t1 = true := by
  rw [isExpire_of_valid mi ht hc] at h
  rw [isExpire_of_valid mi ht1 hc]
  exact ⟨h.1, by omega⟩

/-- C19: on a map with distinct keys whose creation times are clock readings,
`Get(k)` and `IsExist(k)` at a time `t1` not before the scan time `t` give the
same results on the store left by a wake of the reclaimer scanning at `t` as
on the store before it. -/
theorem reclaim_invisible_to_reads (mc mc1 : MemoryCache) (k : String) (t t1 : Int)
    (hu : uniqueKeys mc.items)
    (hv : ∀ e ∈ mc.items, validInstant e.2.createdTime)
    (ht : validInstant t) (ht1 : validInstant t1) (hle : t ≤ t1)
    (hr : mc.reclaim t = some mc1) :
    mc1.Get k t1 = mc.Get k t1 ∧ mc1.IsExist k t1 = mc.IsExist k t1 := by
  obtain ⟨hi, _⟩ := reclaim_items hu hr
  have hl : mapLookup k mc1.items =
      (mapLookup k mc.items).filter (fun itm => !itm.isExpire t) := by
    rw [hi]
    exact mapLookup_filter (fun itm => !itm.isExpire t) hu k
  unfold MemoryCache.Get MemoryCache.IsExist
  rw [hl]
  cases hk : mapLookup k mc.items with
  | none => exact ⟨rfl, rfl⟩
  | some itm =>
    cases he : itm.isExpire t with
    | true =>
      have he1 := isExpire_mono (hv _ (mapLookup_mem hk)) ht ht1 hle he
      simp [Option.filter, he, he1]
    | false =>
      simp [Option.filter, he]

theorem reclaim_invisible_to_reads_witness :
    ({ items := [("n", { val := .nil, createdTime := 0, lifespan := 0 })],
       config := some { CheckPeriodMs := 500, TimeoutFn := true } } : MemoryCache).Get "a" 60 =
      exampleCache.Get "a" 60 ∧
    ({ items := [("n", { val := .nil, createdTime := 0, lifespan := 0 })],
       config := some { CheckPeriodMs := 500, TimeoutFn := true } } : MemoryCache).IsExist "a" 60 =
      exampleCache.IsExist "a" 60 :=
  reclaim_invisible_to_reads exampleCache
    { items := [("n", { val := .nil, createdTime := 0, lifespan := 0 })],
      config := some { CheckPeriodMs := 500, TimeoutFn := true } } "a" 50 60
    (by unfold uniqueKeys; decide)
    (by unfold validInstant maxDuration; decide)
    (by unfold validInstant maxDuration; decide)
    (by unfold validInstant maxDuration; decide)
    (by decide) (by decide)

/-! ## Frame of `Incr` and `Decr` -/

theorem mapLookup_mapSetVal_meta (k k1 : String) (v : Value) (m : Items) :
    (mapLookup k1 (mapSetVal k v m)).map (fun i => (i.createdTime, i.lifespan)) =
      (mapLookup k1 m).map (fun i => (i.createdTime, i.lifespan)) := by
  by_cases hk : k = k1
  · subst hk
    rw [mapLookup_mapSetVal_self]
    cases mapLookup k m <;> rfl
  · rw [mapLookup_mapSetVal_ne hk]

/-- The frame shared by the two possible stores after `Incr` or `Decr`. -/
theorem frame_of_state {mc mc1 : MemoryCache} {k : String}
    (h : mc1 = mc ∨ ∃ v, mc1 = { mc with items := mapSetVal k v mc.items }) :
    mapKeys mc1.items = mapKeys mc.items ∧
    mc1.config = mc.config ∧
    (∀ k1, (mapLookup k1 mc1.items).map (fun i => (i.createdTime, i.lifespan)) =
      (mapLookup k1 mc.items).map (fun i => (i.createdTime, i.lifespan))) ∧
    (∀ k1, k1 ≠ k → mapLookup k1 mc1.items = mapLookup k1 mc.items) := by
  rcases h with h | ⟨v, h⟩
  · rw [h]
    exact ⟨rfl, rfl, fun _ => rfl, fun _ _ => rfl⟩
  · rw [h]
    refine ⟨mapKeys_mapSetVal k v mc.items, rfl, ?_, ?_⟩
    · intro k1
      exact mapLookup_mapSetVal_meta k k1 v mc.items
    · intro k1 hk1
      exact mapLookup_mapSetVal_ne (fun x => hk1 x.symm) v mc.items

/-- C20: `Incr(k)` and `Decr(k)`, whether they succeed or fail, leave the keys
of the map, the configuration, the creation time and the lifespan of the item
of every key (of `k` in particular), and the whole item of every key other
than `k` as they were. -/
theorem Incr_Decr_frame (mc : MemoryCache) (k : String) :
    (mapKeys (mc.Incr k).1.items = mapKeys mc.items ∧
      (mc.Incr k).1.config = mc.config ∧
      (∀ k1, (mapLookup k1 (mc.Incr k).1.items).map (fun i => (i.createdTime, i.lifespan)) =
        (mapLookup k1 mc.items).map (fun i => (i.createdTime, i.lifespan))) ∧
      (∀ k1, k1 ≠ k → mapLookup k1 (mc.Incr k).1.items = mapLookup k1 mc.items)) ∧
    (mapKeys (mc.Decr k).1.items = mapKeys mc.items ∧
      (mc.Decr k).1.config = mc.config ∧
      (∀ k1, (mapLookup k1 (mc.Decr k).1.items).map (fun i => (i.createdTime, i.lifespan)) =
        (mapLookup k1 mc.items).map (fun i => (i.createdTime, i.lifespan))) ∧
      (∀ k1, k1 ≠ k → mapLookup k1 (mc.Decr k).1.items = mapLookup k1 mc.items)) :=
  ⟨frame_of_state (Incr_state mc k), frame_of_state (Decr_state mc k)⟩

theorem Incr_Decr_frame_witness :
    mapLookup "n" (exampleCache.Incr "a").1.items = mapLookup "n" exampleCache.items ∧
    mapLookup "a" (exampleCache.Decr "n").1.items = mapLookup "a" exampleCache.items :=
  ⟨(Incr_Decr_frame exampleCache "a").1.2.2.2 "n" (by decide),
   (Incr_Decr_frame exampleCache "n").2.2.2.2 "a" (by decide)⟩

/-! ## Distinct keys are kept by every operation -/

theorem uniqueKeys_mapDelete (k : String) {m : Items} (h : uniqueKeys m) :
    uniqueKeys (mapDelete k m) :=
  uniqueKeys_filter _ h

theorem uniqueKeys_mapAssign (k : String) (itm : MemoryItem) {m : Items} (h : uniqueKeys m) :
    uniqueKeys (mapAssign k itm m) := by
  unfold uniqueKeys mapAssign mapKeys
  rw [List.map_cons, List.nodup_cons]
  exact ⟨mapLookup_eq_none_iff.mp (mapLookup_mapDelete_self k m), uniqueKeys_mapDelete k h⟩

theorem uniqueKeys_mapSetVal (k : String) (v : Value) {m : Items} (h : uniqueKeys m) :
    uniqueKeys (mapSetVal k v m) := by
  unfold uniqueKeys
  rw [mapKeys_mapSetVal]
  exact h

theorem uniqueKeys_NewMemoryCache : uniqueKeys NewMemoryCache.items :=
  List.nodup_nil

/-! ## Interleavings of callers and the reclaimer -/

/-- A caller's operation that is not a write to `k` introduces no new item
under `k`. -/
theorem call_OnlyItem {mc : MemoryCache} (now : Int) {op : Op} {k : String}
    {itm : MemoryItem} (hw : op.writes k = false) (h : OnlyItem k itm mc.items) :
    OnlyItem k itm (mc.call now op).items := by
  cases op with
  | get name => exact h
  | getMulti names => exact h
  | isExist name => exact h
  | expiredKeys => exact h
  | clearItems => exact h
  | clearAll => simp [Op.writes] at hw
  | put name value lifespan =>
    have hk := writes_put hw
    intro e he hek
    rcases List.mem_cons.mp he with h1 | h1
    · rw [h1] at hek
      exact absurd hek hk
    · exact h e (mem_mapDelete h1).1 hek
  | delete name =>
    show OnlyItem k itm (mc.Delete name).1.items
    rcases Delete_state mc name with h1 | h1
    · rw [h1]; exact h
    · rw [h1]; exact OnlyItem_mapDelete name h
  | incr key =>
    have hk := writes_incr hw
    show OnlyItem k itm (mc.Incr key).1.items
    rcases Incr_state mc key with h1 | ⟨v, h1⟩
    · rw [h1]; exact h
    · rw [h1]; exact OnlyItem_mapSetVal v hk h
  | decr key =>
    have hk := writes_decr hw
    show OnlyItem k itm (mc.Decr key).1.items
    rcases Decr_state mc key with h1 | ⟨v, h1⟩
    · rw [h1]; exact h
    · rw [h1]; exact OnlyItem_mapSetVal v hk h

/-- A caller's operation that is not a write to `k` leaves the entry of `k` as
it is. -/
theorem call_mapLookup (mc : MemoryCache) (now : Int) {op : Op} {k : String}
    (hw : op.writes k = false) :
    mapLookup k (mc.call now op).items = mapLookup k mc.items := by
  cases op with
  | get name => rfl
  | getMulti names => rfl
  | isExist name => rfl
  | expiredKeys => rfl
  | clearItems => rfl
  | clearAll => simp [Op.writes] at hw
  | put name value lifespan => exact mapLookup_mapAssign_ne (writes_put hw) _ _
  | delete name =>
    show mapLookup k (mc.Delete name).1.items = mapLookup k mc.items
    rcases Delete_state mc name with h1 | h1
    · rw [h1]
    · rw [h1]; exact mapLookup_mapDelete_ne (writes_delete hw) _
  | incr key =>
    show mapLookup k (mc.Incr key).1.items = mapLookup k mc.items
    rcases Incr_state mc key with h1 | ⟨v, h1⟩
    · rw [h1]
    · rw [h1]; exact mapLookup_mapSetVal_ne (writes_incr hw) _ _
  | decr key =>
    show mapLookup k (mc.Decr key).1.items = mapLookup k mc.items
    rcases Decr_state mc key with h1 | ⟨v, h1⟩
    · rw [h1]
    · rw [h1]; exact mapLookup_mapSetVal_ne (writes_decr hw) _ _

/-- Every caller's operation returns a map with distinct keys when it is given
one. -/
theorem call_uniqueKeys {mc : MemoryCache} (now : Int) (op : Op)
    (h : uniqueKeys mc.items) : uniqueKeys (mc.call now op).items := by
  cases op with
  | get name => exact h
  | getMulti names => exact h
  | isExist name => exact h
  | expiredKeys => exact h
  | clearItems => exact h
  | clearAll => exact List.nodup_nil
  | put name value lifespan => exact uniqueKeys_mapAssign name _ h
  | delete name =>
    show uniqueKeys (mc.Delete name).1.items
    rcases Delete_state mc name with h1 | h1
    · rw [h1]; exact h
    · rw [h1]; exact uniqueKeys_mapDelete name h
  | incr key =>
    show uniqueKeys (mc.Incr key).1.items
    rcases Incr_state mc key with h1 | ⟨v, h1⟩
    · rw [h1]; exact h
    · rw [h1]; exact uniqueKeys_mapSetVal key v h
  | decr key =>
    show uniqueKeys (mc.Decr key).1.items
    rcases Decr_state mc key with h1 | ⟨v, h1⟩
    · rw [h1]; exact h
    · rw [h1]; exact uniqueKeys_mapSetVal key v h

/-- The three outcomes of one locked section: a caller's operation on the
cache, a scan that keeps its keys, or the clearing of the collected keys. -/
theorem step_cases {s s1 : Runtime} {now : Int} {op : Op} (hs : s.step now op = some s1) :
    (s1.collected = s.collected ∧ s1.cache = s.cache.call now op) ∨
    (s1.cache = s.cache ∧ ∃ keys calls, s.cache.expiredKeys now = some (keys, calls) ∧
      s1.collected = some keys) ∨
    (∃ keys, s.collected = some keys ∧ s1.cache = s.cache.clearItems keys ∧
      s1.collected = none) := by
  cases op with
  | expiredKeys =>
    unfold Runtime.step at hs
    cases hc : s.collected with
    | some keys0 =>
      simp only [hc, Option.some.injEq] at hs
      rw [← hs]
      exact Or.inl ⟨hc, rfl⟩
    | none =>
      simp only [hc] at hs
      cases hx : s.cache.expiredKeys now with
      | none => simp [hx] at hs
      | some r =>
        obtain ⟨keys, calls⟩ := r
        simp only [hx] at hs
        by_cases hl : keys.length > 0
        · rw [if_pos hl, Option.some.injEq] at hs
          rw [← hs]
          exact Or.inr (Or.inl ⟨rfl, keys, calls, rfl, rfl⟩)
        · rw [if_neg hl, Option.some.injEq] at hs
          rw [← hs]
          exact Or.inl ⟨hc, rfl⟩
  | clearItems =>
    unfold Runtime.step at hs
    cases hc : s.collected with
    | none =>
      simp only [hc, Option.some.injEq] at hs
      rw [← hs]
      exact Or.inl ⟨hc, rfl⟩
    | some keys =>
      simp only [hc, Option.some.injEq] at hs
      rw [← hs]
      exact Or.inr (Or.inr ⟨keys, rfl, rfl, rfl⟩)
  | get name => cases hs; exact Or.inl ⟨rfl, rfl⟩
  | getMulti names => cases hs; exact Or.inl ⟨rfl, rfl⟩
  | isExist name => cases hs; exact Or.inl ⟨rfl, rfl⟩
  | clearAll => cases hs; exact Or.inl ⟨rfl, rfl⟩
  | put name value lifespan => cases hs; exact Or.inl ⟨rfl, rfl⟩
  | delete name => cases hs; exact Or.inl ⟨rfl, rfl⟩
  | incr key => cases hs; exact Or.inl ⟨rfl, rfl⟩
  | decr key => cases hs; exact Or.inl ⟨rfl, rfl⟩

/-- Every locked section returns a map with distinct keys when it is given
one. -/
theorem step_uniqueKeys {s s1 : Runtime} {now : Int} {op : Op}
    (h : uniqueKeys s.cache.items) (hs : s.step now op = some s1) :
    uniqueKeys s1.cache.items := by
  rcases step_cases hs with ⟨_, hc⟩ | ⟨hc, _⟩ | ⟨keys, _, hc, _⟩
  · rw [hc]; exact call_uniqueKeys now op h
  · rw [hc]; exact h
  · rw [hc]
    show uniqueKeys (keys.foldl (fun m key => mapDelete key m) s.cache.items)
    rw [foldl_mapDelete_eq_filter]
    exact uniqueKeys_filter _ h

/-- Every store reached from one with distinct keys, under every interleaving
of callers and reclaimer, has distinct keys. -/
theorem run_uniqueKeys (ops : List (Int × Op)) :
    ∀ {s s1 : Runtime}, uniqueKeys s.cache.items → s.run ops = some s1 →
      uniqueKeys s1.cache.items := by
  induction ops with
  | nil =>
    intro s s1 h hr
    cases hr
    exact h
  | cons e rest ih =>
    intro s s1 h hr
    obtain ⟨now, op⟩ := e
    unfold Runtime.run at hr
    cases hs : s.step now op with
    | none => simp [hs] at hr
    | some s2 =>
      simp only [hs] at hr
      exact ih (step_uniqueKeys h hs) hr

/-- One locked section that is not a write to `k` keeps three facts about the
item `itm` put under `k`: no other item stands under `k`; `k` is among the
collected keys only if `E` holds; and `k` is mapped to `itm` unless `E` holds.
Here `E` is any consequence of `itm` being expired when the section runs. -/
theorem step_lifetime {s s1 : Runtime} {now : Int} {op : Op} {k : String}
    {itm : MemoryItem} {E : Prop} (hw : op.writes k = false)
    (hexp : itm.isExpire now = true → E)
    (hO : OnlyItem k itm s.cache.items)
    (hC : ∀ keys, s.collected = some keys → k ∈ keys → E)
    (hL : mapLookup k s.cache.items = some itm ∨ E)
    (hs : s.step now op = some s1) :
    OnlyItem k itm s1.cache.items ∧
    (∀ keys, s1.collected = some keys → k ∈ keys → E) ∧
    (mapLookup k s1.cache.items = some itm ∨ E) := by
  rcases step_cases hs with ⟨hcol, hc⟩ | ⟨hc, keys, calls, hx, hcol⟩ | ⟨keys, hcol0, hc, hcol⟩
  · refine ⟨?_, ?_, ?_⟩
    · rw [hc]; exact call_OnlyItem now hw hO
    · rw [hcol]; exact hC
    · rw [hc, call_mapLookup s.cache now hw]; exact hL
  · refine ⟨?_, ?_, ?_⟩
    · rw [hc]; exact hO
    · intro keys1 h1 hk
      rw [hcol, Option.some.injEq] at h1
      rw [← h1] at hk
      obtain ⟨i1, hm, he⟩ := (mem_expiredKeysLoop hx k).mp hk
      have hi : i1 = itm := hO (k, i1) hm rfl
      rw [hi] at he
      exact hexp he
    · rw [hc]; exact hL
  · refine ⟨?_, ?_, ?_⟩
    · rw [hc]
      intro e he hek
      exact hO e (mem_foldl_mapDelete he) hek
    · intro keys1 h1
      rw [hcol] at h1
      cases h1
    · by_cases hk : k ∈ keys
      · exact Or.inr (hC keys hcol0 hk)
      · rw [hc]
        show mapLookup k (keys.foldl (fun m key => mapDelete key m) s.cache.items) = some itm ∨ E
        rw [mapLookup_foldl_mapDelete, if_neg hk]
        exact hL

theorem run_lifetime {k : String} {itm : MemoryItem} {E : Prop} (ops : List (Int × Op)) :
    ∀ {s s1 : Runtime},
      (∀ e ∈ ops, e.2.writes k = false ∧ (itm.isExpire e.1 = true → E)) →
      OnlyItem k itm s.cache.items →
      (∀ keys, s.collected = some keys → k ∈ keys → E) →
      (mapLookup k s.cache.items = some itm ∨ E) →
      s.run ops = some s1 →
      OnlyItem k itm s1.cache.items ∧ (mapLookup k s1.cache.items = some itm ∨ E) := by
  induction ops with
  | nil =>
    intro s s1 _ hO _ hL hr
    cases hr
    exact ⟨hO, hL⟩
  | cons e rest ih =>
    intro s s1 hw hO hC hL hr
    obtain ⟨now, op⟩ := e
    unfold Runtime.run at hr
    cases hs : s.step now op with
    | none => simp [hs] at hr
    | some s2 =>
      simp only [hs] at hr
      have h0 := hw _ (List.mem_cons_self _ _)
      obtain ⟨hO2, hC2, hL2⟩ := step_lifetime h0.1 h0.2 hO hC hL hs
      exact ih (fun e he => hw e (List.mem_cons_of_mem _ he)) hO2 hC2 hL2 hr

/-- Outside the window of a wake of the reclaimer: when `k` is not among keys
already collected by a scan whose clearing is still to come, then after
`Put(k, v, D)` at time `t`, followed by any interleaving of callers' operations
that are not writes to `k` and of scans and clearings of the reclaimer, at
times between `t` and the read time `t1`: with `D = 0`, `Get(k)` is `v` and
`IsExist(k)` is true; with `D > 0`, `IsExist(k)` is true while `t1 - t ≤ D`,
and `IsExist(k)` is false and `Get(k)` is nil once `t1 - t > D`. -/
theorem Put_then_read_lifetime (s : Runtime) (k : String) (v : Value) (D t t1 : Int)
    (ops : List (Int × Op)) (s1 : Runtime)
    (ht : validInstant t) (ht1 : validInstant t1)
    (hcol : ∀ keys, s.collected = some keys → k ∉ keys)
    (hops : ∀ e ∈ ops, e.2.writes k = false ∧ t ≤ e.1 ∧ e.1 ≤ t1)
    (hrun : Runtime.run { s with cache := (s.cache.Put k v D t).1 } ops = some s1) :
    (D = 0 → s1.cache.Get k t1 = v ∧ s1.cache.IsExist k t1 = true) ∧
    (0 < D → t1 - t ≤ D → s1.cache.IsExist k t1 = true ∧ s1.cache.Get k t1 = v) ∧
    (0 < D → t1 - t > D →
      s1.cache.IsExist k t1 = false ∧ s1.cache.Get k t1 = Value.nil) := by
  have hO : OnlyItem k { val := v, createdTime := t, lifespan := D }
      (s.cache.Put k v D t).1.items := OnlyItem_mapAssign k _ _
  have hP : mapLookup k (s.cache.Put k v D t).1.items =
      some { val := v, createdTime := t, lifespan := D } := mapLookup_mapAssign_self _ _ _
  have hvalid : ∀ e ∈ ops, validInstant e.1 := by
    intro e he
    have h1 := (hops e he).2
    unfold validInstant at ht ht1 ⊢
    exact ⟨le_trans ht.1 h1.1, le_trans h1.2 ht1.2⟩
  have hmono : ∀ e ∈ ops,
      MemoryItem.isExpire { val := v, createdTime := t, lifespan := D } e.1 = true →
      MemoryItem.isExpire { val := v, createdTime := t, lifespan := D } t1 = true :=
    fun e he hx => isExpire_mono ht (hvalid e he) ht1 (hops e he).2.2 hx
  obtain ⟨hO1, hL1⟩ := @run_lifetime k { val := v, createdTime := t, lifespan := D }
    (MemoryItem.isExpire { val := v, createdTime := t, lifespan := D } t1 = true) ops
    { s with cache := (s.cache.Put k v D t).1 } s1
    (fun e he => ⟨(hops e he).1, hmono e he⟩) hO
    (fun keys hk hmem => absurd hmem (hcol keys hk)) (Or.inl hP) hrun
  have hexp : MemoryItem.isExpire { val := v, createdTime := t, lifespan := D } t1 = true ↔
      D ≠ 0 ∧ t1 - t > D := isExpire_of_valid _ ht1 ht
  have hlive : (D = 0 ∨ t1 - t ≤ D) →
      mapLookup k s1.cache.items = some { val := v, createdTime := t, lifespan := D } ∧
      MemoryItem.isExpire { val := v, createdTime := t, lifespan := D } t1 = false := by
    intro hc
    have hne : MemoryItem.isExpire { val := v, createdTime := t, lifespan := D } t1 = false := by
      rw [← Bool.not_eq_true, hexp]
      rintro ⟨h0, h1⟩
      rcases hc with hc | hc
      · exact h0 hc
      · omega
    rcases hL1 with hl | he
    · exact ⟨hl, hne⟩
    · rw [hne] at he
      cases he
  refine ⟨?_, ?_, ?_⟩
  · intro h0
    obtain ⟨hl, he⟩ := hlive (Or.inl h0)
    simp [MemoryCache.Get, MemoryCache.IsExist, hl, he]
  · intro _ h1
    obtain ⟨hl, he⟩ := hlive (Or.inr h1)
    simp [MemoryCache.Get, MemoryCache.IsExist, hl, he]
  · intro h0 h1
    have he : MemoryItem.isExpire { val := v, createdTime := t, lifespan := D } t1 = true :=
      hexp.mpr ⟨by omega, h1⟩
    cases hl : mapLookup k s1.cache.items with
    | none => simp [MemoryCache.Get, MemoryCache.IsExist, hl]
    | some itm =>
      have : itm = { val := v, createdTime := t, lifespan := D } :=
        hO1 (k, itm) (mapLookup_mem hl) rfl
      subst this
      simp [MemoryCache.Get, MemoryCache.IsExist, hl, he]

theorem Put_then_read_lifetime_witness :
    ({ items := [("k", { val := .string "v", createdTime := 100, lifespan := 10 })],
       config := some { CheckPeriodMs := 500, TimeoutFn := true } } : MemoryCache).IsExist
        "k" 110 = true ∧
    ({ items := [], config := some { CheckPeriodMs := 500, TimeoutFn := true } }
       : MemoryCache).IsExist "k" 110 = false :=
  ⟨((Put_then_read_lifetime { cache := exampleCache, collected := none }
      "k" (.string "v") 10 100 110 exampleOps
      { cache :=
          { items := [("k", { val := .string "v", createdTime := 100, lifespan := 10 })],
            config := some { CheckPeriodMs := 500, TimeoutFn := true } },
        collected := none }
      (by unfold validInstant maxDuration; decide)
      (by unfold validInstant maxDuration; decide)
      (by decide) (by decide) (by decide)).2.1 (by decide) (by decide)).1,
   ((Put_then_read_lifetime { cache := exampleCache, collected := none }
      "k" (.string "v") 4 100 110 exampleOps
      { cache := { items := [], config := some { CheckPeriodMs := 500, TimeoutFn := true } },
        collected := none }
      (by unfold validInstant maxDuration; decide)
      (by unfold validInstant maxDuration; decide)
      (by decide) (by decide) (by decide)).2.2 (by decide) (by decide)).1⟩

/-- C2, the code at the failing schedule: key "a" holds an item expired at time
50; the reclaimer's `expiredKeys` scans at 50 and collects "a"; a caller's
`Put("a", "v", 0)` runs at 55, while the lock is free; the reclaimer's
`clearItems` then deletes "a" at 56.  Afterwards `Get("a")` is nil and
`IsExist("a")` is false, at 56 and at 60, although lifespan 0 means no expiry;
the same holds with lifespan 1000 ns, of which 1 ns has elapsed at 56.  With
the `Put` after the clearing, `Get("a")` is "v" and `IsExist("a")` is true. -/
theorem Put_between_scan_and_clear_is_deleted :
    exampleCache.IsExist "a" 50 = false ∧
    exampleCache.expiredKeys 50 = some (["a"], [("a", Value.int 1)]) ∧
    (Runtime.run { cache := exampleCache, collected := none } raceOps).map
        (fun s => (s.cache.Get "a" 56, s.cache.IsExist "a" 56,
          s.cache.Get "a" 60, s.cache.IsExist "a" 60)) =
      some (Value.nil, false, Value.nil, false) ∧
    (Runtime.run { cache := exampleCache, collected := none } raceOpsTimed).map
        (fun s => (s.cache.Get "a" 56, s.cache.IsExist "a" 56)) =
      some (Value.nil, false) ∧
    (Runtime.run { cache := exampleCache, collected := none } orderedOps).map
        (fun s => (s.cache.Get "a" 60, s.cache.IsExist "a" 60)) =
      some (Value.string "v", true) := by
  decide

end Cache
